import Mathlib

/-!
Verification development for the AISTATElight repository.

The definitions below are shallow embeddings of the corresponding Python
functions. Timestamps (Python floats used only through `+ - min max <`) are
modelled as rationals. Python strings are modelled as `String` / `List Char`.
External capabilities (sentence-embedding model, k-means, silhouette score)
are abstracted as function parameters; an exception raised by a capability is
modelled as an `Option`/`none` result.
-/

namespace AIState

/-! ## Character classes and Python-style strip helpers -/

/-- Python's `\s` class (ASCII part): space, tab, newline, carriage return,
vertical tab, form feed. -/
def isWs (c : Char) : Bool :=
  c == ' ' || c == '\t' || c == '\n' || c == '\r' || c == '\x0b' || c == '\x0c'

/-- The character class `[0-9:.,]` of `_TS_BRACKET_RE` in `src/ui/segments.py`. -/
def tsClass (c : Char) : Bool :=
  c.isDigit || c == ':' || c == '.' || c == ','

/-- Characters allowed in a speaker label by `_SPK_PREFIX_RE` /
`_SPK_AFTER_TS_RE`: everything except `:`, `[`, `]`. -/
def goodSpk (c : Char) : Bool :=
  !(c == ':' || c == '[' || c == ']')

/-- Python `str.strip()` on a character list. -/
def pyStripL (cs : List Char) : List Char :=
  ((cs.dropWhile isWs).reverse.dropWhile isWs).reverse

/-- Python `str.rstrip()` on a character list. -/
def pyRStripL (cs : List Char) : List Char :=
  (cs.reverse.dropWhile isWs).reverse

/-- Python `str.rstrip("\n")` on a character list. -/
def rstripNlL (cs : List Char) : List Char :=
  (cs.reverse.dropWhile (fun c => c == '\n')).reverse

/-- Python `str.strip()` on a `String`. -/
def pyStrip (s : String) : String :=
  String.mk (pyStripL s.toList)

/-- Python `str.rstrip("\n")` on a `String`. -/
def rstripNl (s : String) : String :=
  String.mk (rstripNlL s.toList)

/-! ## TimeAligner: `assign_speakers_by_time` (src/AIstateLight.py:446-470) -/

/-- Overlap length between text segment `[ws, we]` and speaker turn
`[ss, se]`: `max(0.0, min(we, se) - max(ws, ss))`. -/
def overlapLen (ws we ss se : ℚ) : ℚ :=
  max 0 (min we se - max ws ss)

/-- The inner loop of `assign_speakers_by_time`: scan the speaker turns
keeping `(best_speaker, best_overlap)`, starting from `(None, 0.0)` and
replacing the best only on strictly greater overlap; `None` becomes
`"UNKNOWN"` at the end. -/
def assignOne (ws we : ℚ) (speaker_segments : List (ℚ × ℚ × String)) : String :=
  let best := speaker_segments.foldl
    (fun acc t =>
      let ov := overlapLen ws we t.1 t.2.1
      if acc.2 < ov then (some t.2.2, ov) else acc)
    ((none : Option String), (0 : ℚ))
  match best.1 with
  | none => "UNKNOWN"
  | some s => s

/-- `assign_speakers_by_time(whisper_segments, speaker_segments)`: one output
tuple `(speaker, ws, we, text)` per input tuple `(ws, we, text)`. -/
def assign_speakers_by_time (whisper_segments speaker_segments : List (ℚ × ℚ × String)) :
    List (String × ℚ × ℚ × String) :=
  whisper_segments.map (fun s => (assignOne s.1 s.2.1 speaker_segments, s))

/-- The inner loop of `diarize_voice_whisper_pyannote`
(src/legacy_adapter.py:310-317): same scan but starting from
`("UNKNOWN", 0.0)`. -/
def legacyPickSpeaker (s0 s1 : ℚ) (turns : List (ℚ × ℚ × String)) : String :=
  (turns.foldl
    (fun acc t =>
      let ov := overlapLen s0 s1 t.1 t.2.1
      if acc.2 < ov then (t.2.2, ov) else acc)
    ("UNKNOWN", (0 : ℚ))).1

/-! ### Fold lemmas for the best-overlap scan -/

lemma assignFold_const (ws we : ℚ) (ts : List (ℚ × ℚ × String))
    (acc : Option String × ℚ)
    (h : ∀ t ∈ ts, overlapLen ws we t.1 t.2.1 ≤ acc.2) :
    ts.foldl
      (fun acc t =>
        let ov := overlapLen ws we t.1 t.2.1
        if acc.2 < ov then (some t.2.2, ov) else acc)
      acc = acc := by
  induction ts with
  | nil => rfl
  | cons t ts ih =>
    have ht : overlapLen ws we t.1 t.2.1 ≤ acc.2 := h t (List.mem_cons_self _ _)
    simp only [List.foldl_cons]
    have : ¬ acc.2 < overlapLen ws we t.1 t.2.1 := not_lt.mpr ht
    simp only [this, if_neg, if_false]
    exact ih (fun u hu => h u (List.mem_cons_of_mem _ hu))

lemma assignFold_lt (ws we : ℚ) (ts : List (ℚ × ℚ × String))
    (acc : Option String × ℚ) (c : ℚ)
    (hacc : acc.2 < c)
    (h : ∀ t ∈ ts, overlapLen ws we t.1 t.2.1 < c) :
    (ts.foldl
      (fun acc t =>
        let ov := overlapLen ws we t.1 t.2.1
        if acc.2 < ov then (some t.2.2, ov) else acc)
      acc).2 < c := by
  induction ts generalizing acc with
  | nil => exact hacc
  | cons t ts ih =>
    simp only [List.foldl_cons]
    by_cases hlt : acc.2 < overlapLen ws we t.1 t.2.1
    · simp only [hlt, if_true]
      exact ih _ (h t (List.mem_cons_self _ _)) (fun u hu => h u (List.mem_cons_of_mem _ hu))
    · simp only [hlt, if_false]
      exact ih _ hacc (fun u hu => h u (List.mem_cons_of_mem _ hu))

/-- Relation between the two scans: starting accumulators that agree modulo
`Option.getD "UNKNOWN"` on the first component stay in agreement. -/
lemma legacyFold_agree (ws we : ℚ) (ts : List (ℚ × ℚ × String))
    (o : Option String) (s : String) (b : ℚ)
    (h : o.getD "UNKNOWN" = s) :
    (ts.foldl
      (fun acc t =>
        let ov := overlapLen ws we t.1 t.2.1
        if acc.2 < ov then (t.2.2, ov) else acc)
      (s, b)).1
    = (ts.foldl
      (fun acc t =>
        let ov := overlapLen ws we t.1 t.2.1
        if acc.2 < ov then (some t.2.2, ov) else acc)
      (o, b)).1.getD "UNKNOWN" := by
  induction ts generalizing o s b with
  | nil => simpa using h.symm
  | cons t ts ih =>
    simp only [List.foldl_cons]
    by_cases hlt : b < overlapLen ws we t.1 t.2.1
    · simp only [hlt, if_true]
      exact ih _ _ _ rfl
    · simp only [hlt, if_false]
      exact ih _ _ _ h

lemma assignOne_eq_getD (ws we : ℚ) (turns : List (ℚ × ℚ × String)) :
    assignOne ws we turns
      = ((turns.foldl
          (fun acc t =>
            let ov := overlapLen ws we t.1 t.2.1
            if acc.2 < ov then (some t.2.2, ov) else acc)
          ((none : Option String), (0 : ℚ))).1).getD "UNKNOWN" := by
  unfold assignOne
  cases hfold : turns.foldl
      (fun acc t =>
        let ov := overlapLen ws we t.1 t.2.1
        if acc.2 < ov then (some t.2.2, ov) else acc)
      ((none : Option String), (0 : ℚ)) with
  | mk o b => cases o <;> rfl

lemma legacyPickSpeaker_eq_assignOne (ws we : ℚ) (turns : List (ℚ × ℚ × String)) :
    legacyPickSpeaker ws we turns = assignOne ws we turns := by
  rw [assignOne_eq_getD]
  exact legacyFold_agree ws we turns none "UNKNOWN" 0 rfl

lemma assignOne_first_max (ws we ss se : ℚ) (spk : String)
    (l₁ l₂ : List (ℚ × ℚ × String))
    (hpos : 0 < overlapLen ws we ss se)
    (hb : ∀ t ∈ l₁, overlapLen ws we t.1 t.2.1 < overlapLen ws we ss se)
    (ha : ∀ t ∈ l₂, overlapLen ws we t.1 t.2.1 ≤ overlapLen ws we ss se) :
    assignOne ws we (l₁ ++ (ss, se, spk) :: l₂) = spk := by
  unfold assignOne
  rw [List.foldl_append]
  set accL := l₁.foldl
    (fun acc t =>
      let ov := overlapLen ws we t.1 t.2.1
      if acc.2 < ov then (some t.2.2, ov) else acc)
    ((none : Option String), (0 : ℚ)) with haccL
  have h2 : accL.2 < overlapLen ws we ss se := by
    rw [haccL]
    exact assignFold_lt ws we l₁ _ _ hpos hb
  simp only [List.foldl_cons, h2, if_true]
  rw [assignFold_const ws we l₂ _ (by simpa using ha)]

/-- C1: for every text segment `(ws, we, text)` and every sequence of speaker
turns, `assign_speakers_by_time` computes for each turn the overlap
`max(0, min(we, se) - max(ws, ss))` and assigns the speaker of the turn with
the strictly greatest overlap; on ties the turn occurring first in the
sequence wins. Formalised via the decomposition `l₁ ++ (ss, se, spk) :: l₂`:
if the distinguished turn has positive overlap, every earlier turn has
strictly smaller overlap and every later turn has no larger overlap, then its
speaker is assigned — both by the core aligner and by the legacy adapter's
scan. -/
theorem aligner_assigns_first_greatest_overlap
    (ws we ss se : ℚ) (spk txt : String)
    (l₁ l₂ segs : List (ℚ × ℚ × String))
    (hpos : 0 < overlapLen ws we ss se)
    (hb : ∀ t ∈ l₁, overlapLen ws we t.1 t.2.1 < overlapLen ws we ss se)
    (ha : ∀ t ∈ l₂, overlapLen ws we t.1 t.2.1 ≤ overlapLen ws we ss se)
    (hmem : (ws, we, txt) ∈ segs) :
    assignOne ws we (l₁ ++ (ss, se, spk) :: l₂) = spk ∧
    legacyPickSpeaker ws we (l₁ ++ (ss, se, spk) :: l₂) = spk ∧
    (spk, ws, we, txt) ∈ assign_speakers_by_time segs (l₁ ++ (ss, se, spk) :: l₂) := by
  have h1 := assignOne_first_max ws we ss se spk l₁ l₂ hpos hb ha
  refine ⟨h1, by rw [legacyPickSpeaker_eq_assignOne]; exact h1, ?_⟩
  refine List.mem_map.mpr ⟨(ws, we, txt), hmem, ?_⟩
  show (assignOne ws we (l₁ ++ (ss, se, spk) :: l₂), (ws, we, txt)) = (spk, ws, we, txt)
  rw [h1]

/-- Witness for C1, using the spec's own §8 example: text segment `(2,5)`
against turns `[(0,4,"A"), (4,6,"B")]` (overlaps 2 and 1) is assigned `"A"`. -/
theorem aligner_assigns_first_greatest_overlap_witness :
    assignOne 2 5 [(0, 4, "A"), (4, 6, "B")] = "A" ∧
    legacyPickSpeaker 2 5 [(0, 4, "A"), (4, 6, "B")] = "A" ∧
    ("A", (2 : ℚ), (5 : ℚ), "x") ∈ assign_speakers_by_time [(2, 5, "x")] [(0, 4, "A"), (4, 6, "B")] := by
  have h := aligner_assigns_first_greatest_overlap 2 5 0 4 "A" "x"
    [] [(4, 6, "B")] [(2, 5, "x")]
    (by norm_num [overlapLen])
    (by intro t ht; simp at ht)
    (by
      intro t ht
      simp only [List.mem_singleton] at ht
      subst ht
      norm_num [overlapLen])
    (by simp)
  simpa using h

/-- C2: the output of `assign_speakers_by_time` has exactly one element per
input text segment, in the same order, and the i-th output's
`(start, end, text)` equals the i-th input's — no text segment is dropped,
whatever the speaker turns are. -/
theorem aligner_preserves_segments
    (segs turns : List (ℚ × ℚ × String)) :
    (assign_speakers_by_time segs turns).length = segs.length ∧
    ∀ i (h1 : i < (assign_speakers_by_time segs turns).length) (h2 : i < segs.length),
      ((assign_speakers_by_time segs turns).get ⟨i, h1⟩).2 = segs.get ⟨i, h2⟩ := by
  constructor
  · simp [assign_speakers_by_time]
  · intro i h1 h2
    simp only [assign_speakers_by_time, List.get_eq_getElem, List.getElem_map]

/-- Witness for C2 at a concrete input (3 segments, 1 turn). -/
theorem aligner_preserves_segments_witness :
    (assign_speakers_by_time [(0, 1, "a"), (1, 2, "b"), (5, 7, "c")] [(0, 2, "S")]).length = 3 ∧
    ∃ (h1 : 1 < (assign_speakers_by_time [(0, 1, "a"), (1, 2, "b"), (5, 7, "c")] [(0, 2, "S")]).length)
      (h2 : 1 < ([(0, 1, "a"), (1, 2, "b"), (5, 7, "c")] : List (ℚ × ℚ × String)).length),
      ((assign_speakers_by_time [(0, 1, "a"), (1, 2, "b"), (5, 7, "c")] [(0, 2, "S")]).get
        ⟨1, h1⟩).2
        = ([(0, 1, "a"), (1, 2, "b"), (5, 7, "c")] : List (ℚ × ℚ × String)).get ⟨1, h2⟩ := by
  have h := aligner_preserves_segments [(0, 1, "a"), (1, 2, "b"), (5, 7, "c")] [(0, 2, "S")]
  have h1 : 1 < (assign_speakers_by_time [(0, 1, "a"), (1, 2, "b"), (5, 7, "c")] [(0, 2, "S")]).length := by
    rw [h.1]
    norm_num
  have h2 : 1 < ([(0, 1, "a"), (1, 2, "b"), (5, 7, "c")] : List (ℚ × ℚ × String)).length := by
    simp
  exact ⟨h.1, h1, h2, h.2 1 h1 h2⟩

/-- C3: if no speaker turn has strictly positive overlap with the text
segment (in particular when the turn list is empty), the sentinel
`"UNKNOWN"` is assigned — by both implementations — and a 3-element text
segment list aligned against an empty turn list yields 3 outputs, all with
speaker `"UNKNOWN"`. -/
theorem aligner_unknown_when_no_overlap
    (ws we : ℚ) (turns : List (ℚ × ℚ × String))
    (h : ∀ t ∈ turns, overlapLen ws we t.1 t.2.1 ≤ 0) :
    assignOne ws we turns = "UNKNOWN" ∧
    legacyPickSpeaker ws we turns = "UNKNOWN" ∧
    ∀ s₁ s₂ s₃ : ℚ × ℚ × String,
      (assign_speakers_by_time [s₁, s₂, s₃] []).map (fun o => o.1)
        = ["UNKNOWN", "UNKNOWN", "UNKNOWN"] := by
  have h1 : assignOne ws we turns = "UNKNOWN" := by
    unfold assignOne
    rw [assignFold_const ws we turns _ (by simpa using h)]
  exact ⟨h1, by rw [legacyPickSpeaker_eq_assignOne]; exact h1, fun s₁ s₂ s₃ => rfl⟩

/-- Witness for C3: segment `(10,12)` against the single turn `(0,1,"A")`
(no overlap) gets `"UNKNOWN"`; the 3-element/empty-turns instance is included. -/
theorem aligner_unknown_when_no_overlap_witness :
    assignOne 10 12 [(0, 1, "A")] = "UNKNOWN" ∧
    legacyPickSpeaker 10 12 [(0, 1, "A")] = "UNKNOWN" ∧
    (assign_speakers_by_time [(0, 1, "a"), (1, 2, "b"), (5, 7, "c")] []).map (fun o => o.1)
      = ["UNKNOWN", "UNKNOWN", "UNKNOWN"] := by
  have h := aligner_unknown_when_no_overlap 10 12 [(0, 1, "A")]
    (by
      intro t ht
      simp only [List.mem_singleton] at ht
      subst ht
      norm_num [overlapLen])
  exact ⟨h.1, h.2.1, h.2.2 (0, 1, "a") (1, 2, "b") (5, 7, "c")⟩

/-! ## TextOnlyDiarizer: `diarize_alternating` (src/AIstateLight.py:166-180) -/

/-- Blankness test used by `diarize_alternating`: `not raw.strip()` after
`raw = line.rstrip("\n")`. -/
def isBlankLine (l : String) : Bool :=
  pyStrip (rstripNl l) == ""

/-- The loop of `diarize_alternating`, carrying the mutable `speaker_idx`. -/
def diarizeAltGo (num_speakers : Nat) : List String → Nat → List String
  | [], _ => []
  | line :: rest, speaker_idx =>
    let raw := rstripNl line
    if pyStrip raw = "" then
      "" :: diarizeAltGo num_speakers rest speaker_idx
    else
      let idx := speaker_idx % num_speakers + 1
      ("[SPK" ++ toString idx ++ "] " ++ raw) :: diarizeAltGo num_speakers rest idx

/-- `diarize_alternating(lines, num_speakers)`. -/
def diarize_alternating (lines : List String) (num_speakers : Nat) : List String :=
  diarizeAltGo num_speakers lines 0

lemma diarizeAltGo_length (n : Nat) :
    ∀ (lines : List String) (j : Nat), (diarizeAltGo n lines j).length = lines.length := by
  intro lines
  induction lines with
  | nil => intro j; rfl
  | cons line rest ih =>
    intro j
    by_cases hb : pyStrip (rstripNl line) = "" <;>
      simp [diarizeAltGo, hb, ih]

lemma diarizeAltGo_get (n : Nat) :
    ∀ (lines : List String) (j : Nat) (i : Nat)
      (h1 : i < (diarizeAltGo n lines j).length) (h2 : i < lines.length),
      (diarizeAltGo n lines j).get ⟨i, h1⟩
        = (if isBlankLine (lines.get ⟨i, h2⟩) then ""
           else "[SPK"
                ++ toString ((j + ((lines.take i).filter (fun l => !isBlankLine l)).length) % n + 1)
                ++ "] " ++ rstripNl (lines.get ⟨i, h2⟩)) := by
  intro lines
  induction lines with
  | nil => intro j i h1 h2; exact absurd h2 (by simp)
  | cons line rest ih =>
    intro j i h1 h2
    by_cases hb : pyStrip (rstripNl line) = ""
    · have hgo : diarizeAltGo n (line :: rest) j = "" :: diarizeAltGo n rest j := by
        simp only [diarizeAltGo]
        rw [if_pos hb]
      have hbl : isBlankLine line = true := by
        simp [isBlankLine, hb]
      cases i with
      | zero =>
        simp only [List.get_eq_getElem, hgo, List.getElem_cons_zero, hbl, if_pos]
      | succ i =>
        have h1r : i < (diarizeAltGo n rest j).length := by
          rw [diarizeAltGo_length]
          simp only [List.length_cons] at h2
          omega
        have h2r : i < rest.length := by
          simp only [List.length_cons] at h2
          omega
        have hrec := ih j i h1r h2r
        simp only [List.get_eq_getElem] at hrec ⊢
        simp only [hgo, List.getElem_cons_succ]
        rw [hrec]
        simp only [List.take_succ_cons, List.filter_cons, hbl]
        rfl
    · have hgo : diarizeAltGo n (line :: rest) j
          = ("[SPK" ++ toString (j % n + 1) ++ "] " ++ rstripNl line)
            :: diarizeAltGo n rest (j % n + 1) := by
        simp only [diarizeAltGo]
        rw [if_neg hb]
      have hbl : isBlankLine line = false := by
        simp [isBlankLine, hb]
      cases i with
      | zero =>
        simp only [List.get_eq_getElem, hgo, List.getElem_cons_zero, hbl]
        rfl
      | succ i =>
        have h1r : i < (diarizeAltGo n rest (j % n + 1)).length := by
          rw [diarizeAltGo_length]
          simp only [List.length_cons] at h2
          omega
        have h2r : i < rest.length := by
          simp only [List.length_cons] at h2
          omega
        have hrec := ih (j % n + 1) i h1r h2r
        simp only [List.get_eq_getElem] at hrec ⊢
        simp only [hgo, List.getElem_cons_succ]
        rw [hrec]
        have hmod : (j % n + 1 + ((rest.take i).filter (fun l => !isBlankLine l)).length) % n
            = (j + (1 + ((rest.take i).filter (fun l => !isBlankLine l)).length)) % n := by
          rw [Nat.add_assoc, Nat.mod_add_mod]
        simp only [List.take_succ_cons, List.filter_cons, hbl, Bool.not_false, if_pos,
          List.length_cons]
        rw [hmod, Nat.add_comm 1 ((rest.take i).filter (fun l => !isBlankLine l)).length]

/-- C7: `diarize_alternating` preserves the input line order exactly,
including blank lines: the output has one line per input line; a blank input
line yields a blank output line in the same position and does not consume a
speaker-cycle slot — the i-th non-blank line is labelled `SPK(k mod n + 1)`
where `k` counts the non-blank lines strictly before it. In particular
`diarize_alternating ["a", "", "b"] 2 = ["[SPK1] a", "", "[SPK2] b"]`. -/
theorem alternating_preserves_blank_lines (lines : List String) (n : Nat) (hn : 1 ≤ n) :
    (diarize_alternating lines n).length = lines.length ∧
    (∀ i (h1 : i < (diarize_alternating lines n).length) (h2 : i < lines.length),
      isBlankLine (lines.get ⟨i, h2⟩) = true →
        (diarize_alternating lines n).get ⟨i, h1⟩ = "") ∧
    (∀ i (h1 : i < (diarize_alternating lines n).length) (h2 : i < lines.length),
      isBlankLine (lines.get ⟨i, h2⟩) = false →
        (diarize_alternating lines n).get ⟨i, h1⟩
          = "[SPK"
            ++ toString ((((lines.take i).filter (fun l => !isBlankLine l)).length) % n + 1)
            ++ "] " ++ rstripNl (lines.get ⟨i, h2⟩)) ∧
    diarize_alternating ["a", "", "b"] 2 = ["[SPK1] a", "", "[SPK2] b"] := by
  refine ⟨diarizeAltGo_length n lines 0, ?_, ?_, by decide⟩
  · intro i h1 h2 hbl
    simp only [List.get_eq_getElem] at hbl
    show (diarizeAltGo n lines 0).get ⟨i, h1⟩ = ""
    rw [diarizeAltGo_get n lines 0 i h1 h2]
    simp only [List.get_eq_getElem]
    rw [if_pos hbl]
  · intro i h1 h2 hbl
    simp only [List.get_eq_getElem] at hbl
    show (diarizeAltGo n lines 0).get ⟨i, h1⟩ = _
    rw [diarizeAltGo_get n lines 0 i h1 h2]
    simp only [List.get_eq_getElem]
    rw [if_neg (by simp [hbl])]
    simp

/-- Witness for C7: the claim's concrete example, obtained from the theorem. -/
theorem alternating_preserves_blank_lines_witness :
    diarize_alternating ["a", "", "b"] 2 = ["[SPK1] a", "", "[SPK2] b"] :=
  (alternating_preserves_blank_lines [] 1 (by norm_num)).2.2.2

/-! ## TextOnlyDiarizer: embedding policies
(src/AIstateLight.py:211-242 and 245-297)

The embedding model and k-means/silhouette routines are external
capabilities. `kmeansLabels k` stands for `KMeans(n_clusters=k, ...)
.fit_predict(embeddings)` on the (fixed) embeddings of the non-empty lines;
`scoreK k` stands for the whole candidate-evaluation body
`silhouette_score(embeddings, KMeans(k).fit_predict(embeddings))`, with
`none` modelling an exception raised while clustering or scoring that `k`. -/

/-- The relabelling loop shared by both embedding policies: walk
`zip(line_indices, labels)`, assign sequential speaker ids `SPK1, SPK2, ...`
to clusters in order of first appearance, and overwrite `result[idx]`. -/
def relabelGo (lines : List String) :
    List (Nat × Nat) → List (Nat × Nat) → Nat → List String → List String
  | [], _, _, result => result
  | (idx, cluster) :: rest, cluster_to_spk, next_spk_id, result =>
    let line := rstripNl (lines.getD idx "")
    match cluster_to_spk.lookup cluster with
    | some spk_id =>
      relabelGo lines rest cluster_to_spk next_spk_id
        (result.set idx ("[SPK" ++ toString spk_id ++ "] " ++ line))
    | none =>
      relabelGo lines rest ((cluster, next_spk_id) :: cluster_to_spk) (next_spk_id + 1)
        (result.set idx ("[SPK" ++ toString next_spk_id ++ "] " ++ line))

/-- Cluster-to-speaker relabelling: `result = list(lines)` then overwrite the
non-empty positions. -/
def relabel (lines : List String) (line_indices : List Nat) (labels : List Nat) :
    List String :=
  relabelGo lines (line_indices.zip labels) [] 1 lines

/-- The non-empty lines of the input, with their original indices
(`for idx, line in enumerate(lines): if line.strip(): ...`). -/
def nonEmptyEnum (lines : List String) : List (Nat × String) :=
  lines.enum.filter (fun p => pyStrip p.2 ≠ "")

/-- The effective cluster count of `diarize_with_embeddings_fixed`:
`if len(non_empty_lines) < num_speakers: num_speakers =
max(1, len(non_empty_lines))`. -/
def fixedEffectiveK (lines : List String) (num_speakers : Nat) : Nat :=
  let n := (nonEmptyEnum lines).length
  if n < num_speakers then max 1 n else num_speakers

/-- `diarize_with_embeddings_fixed(lines, num_speakers, model)`. -/
def diarize_with_embeddings_fixed (lines : List String) (num_speakers : Nat)
    (kmeansLabels : Nat → List Nat) : List String :=
  let ne := nonEmptyEnum lines
  if ne = [] then lines
  else
    relabel lines (ne.map (fun p => p.1)) (kmeansLabels (fixedEffectiveK lines num_speakers))

/-- The candidate speaker counts of the auto policy:
`range(2, max_k + 1)` for `max_k = min(max_speakers, len(non_empty_lines))`. -/
def autoCandidates (maxK : Nat) : List Nat :=
  List.range' 2 (maxK - 1)

/-- One iteration of the auto policy's search loop: skip `k` if clustering or
scoring raised (`none`), otherwise keep `(k, score)` when the score strictly
beats the best so far. -/
def autoSelectStep (scoreK : Nat → Option ℚ) (acc : Option Nat × ℚ) (k : Nat) :
    Option Nat × ℚ :=
  match scoreK k with
  | none => acc
  | some score => if acc.2 < score then (some k, score) else acc

/-- The auto policy's silhouette search:
`best_k = None; best_score = -1.0; for k in range(2, max_k + 1): ...`. -/
def autoSelectK (maxK : Nat) (scoreK : Nat → Option ℚ) : Option Nat × ℚ :=
  (autoCandidates maxK).foldl (autoSelectStep scoreK) (none, (-1 : ℚ))

/-- `diarize_with_embeddings_auto(lines, max_speakers, model)`. -/
def diarize_with_embeddings_auto (lines : List String) (max_speakers : Nat)
    (scoreK : Nat → Option ℚ) (kmeansLabels : Nat → List Nat) : List String :=
  let ne := nonEmptyEnum lines
  if ne = [] then lines
  else if ne.length < 2 then diarize_alternating lines 1
  else
    let maxK := min max_speakers ne.length
    let best := autoSelectK maxK scoreK
    let best_k :=
      match best.1 with
      | some k => k
      | none => if ne.length < 2 then 1 else 2
    relabel lines (ne.map (fun p => p.1)) (kmeansLabels best_k)

lemma autoFold_const (scoreK : Nat → Option ℚ) (ks : List Nat)
    (acc : Option Nat × ℚ)
    (h : ∀ k ∈ ks, ∀ s, scoreK k = some s → s ≤ acc.2) :
    ks.foldl (autoSelectStep scoreK) acc = acc := by
  induction ks with
  | nil => rfl
  | cons k ks ih =>
    simp only [List.foldl_cons]
    have hstep : autoSelectStep scoreK acc k = acc := by
      unfold autoSelectStep
      cases hk : scoreK k with
      | none => rfl
      | some s =>
        have : ¬ acc.2 < s := not_lt.mpr (h k (List.mem_cons_self _ _) s hk)
        simp [this]
    rw [hstep]
    exact ih (fun u hu s hs => h u (List.mem_cons_of_mem _ hu) s hs)

lemma autoFold_lt (scoreK : Nat → Option ℚ) (ks : List Nat)
    (acc : Option Nat × ℚ) (c : ℚ)
    (hacc : acc.2 < c)
    (h : ∀ k ∈ ks, ∀ s, scoreK k = some s → s < c) :
    (ks.foldl (autoSelectStep scoreK) acc).2 < c := by
  induction ks generalizing acc with
  | nil => exact hacc
  | cons k ks ih =>
    simp only [List.foldl_cons]
    have : (autoSelectStep scoreK acc k).2 < c := by
      unfold autoSelectStep
      cases hk : scoreK k with
      | none => exact hacc
      | some s =>
        by_cases hlt : acc.2 < s
        · simpa [hlt] using h k (List.mem_cons_self _ _) s hk
        · simpa [hlt] using hacc
    exact ih _ this (fun u hu s hs => h u (List.mem_cons_of_mem _ hu) s hs)

/-- C4: the auto policy evaluates exactly the candidates
`k ∈ [2, min(max_speakers, #non-empty lines)]` and keeps the candidate with
the highest silhouette score, the first-seen (smallest) `k` winning exact
ties; a candidate whose clustering/scoring raises is skipped without failing
the whole search. Formalised over the candidate list decomposed as
`l₁ ++ k₀ :: l₂`: if `k₀` scores `s₀ > -1`, every earlier candidate scores
strictly less (or raises) and every later candidate scores no more (or
raises), then the search returns `(some k₀, s₀)`; moreover removing any
raising candidate from the list leaves the fold unchanged, and the candidate
list is exactly the integer interval `[2, maxK]`. -/
theorem auto_silhouette_search_first_max
    (maxK : Nat) (scoreK : Nat → Option ℚ) (k₀ : Nat) (s₀ : ℚ) (l₁ l₂ : List Nat)
    (hdec : autoCandidates maxK = l₁ ++ k₀ :: l₂)
    (hk : scoreK k₀ = some s₀) (hs : -1 < s₀)
    (hb : ∀ k ∈ l₁, ∀ s, scoreK k = some s → s < s₀)
    (ha : ∀ k ∈ l₂, ∀ s, scoreK k = some s → s ≤ s₀) :
    autoSelectK maxK scoreK = (some k₀, s₀) ∧
    (∀ k, k ∈ autoCandidates maxK ↔ 2 ≤ k ∧ k ≤ maxK) ∧
    (∀ (l l' : List Nat) (k : Nat) (acc : Option Nat × ℚ), scoreK k = none →
      (l ++ k :: l').foldl (autoSelectStep scoreK) acc
        = (l ++ l').foldl (autoSelectStep scoreK) acc) := by
  refine ⟨?_, ?_, ?_⟩
  · unfold autoSelectK
    rw [hdec, List.foldl_append]
    have hlt : (l₁.foldl (autoSelectStep scoreK) (none, (-1 : ℚ))).2 < s₀ :=
      autoFold_lt scoreK l₁ _ s₀ hs hb
    have hstep : autoSelectStep scoreK (l₁.foldl (autoSelectStep scoreK) (none, (-1 : ℚ))) k₀
        = (some k₀, s₀) := by
      unfold autoSelectStep
      rw [hk]
      exact if_pos hlt
    simp only [List.foldl_cons, hstep]
    exact autoFold_const scoreK l₂ _ (by simpa using ha)
  · intro k
    unfold autoCandidates
    rw [List.mem_range'_1]
    omega
  · intro l l' k acc hnone
    rw [List.foldl_append, List.foldl_append, List.foldl_cons]
    have : autoSelectStep scoreK (l.foldl (autoSelectStep scoreK) acc) k
        = l.foldl (autoSelectStep scoreK) acc := by
      unfold autoSelectStep
      rw [hnone]
    rw [this]

/-- Witness for C4: with `maxK = 4` and a score function that raises on
`k = 2`, scores `k = 3` with `1/2` and `k = 4` with `1/2` (an exact tie),
the search keeps the first-seen best `k = 3`. -/
theorem auto_silhouette_search_first_max_witness :
    autoSelectK 4
      (fun k => if k = 3 then some (1/2 : ℚ) else if k = 4 then some (1/2 : ℚ) else none)
      = (some 3, (1/2 : ℚ)) := by
  have h := auto_silhouette_search_first_max 4
    (fun k => if k = 3 then some (1/2 : ℚ) else if k = 4 then some (1/2 : ℚ) else none)
    3 (1/2 : ℚ) [2] [4]
    (by decide)
    (by norm_num)
    (by norm_num)
    (by
      intro k hkmem s hks
      simp only [List.mem_singleton] at hkmem
      subst hkmem
      simp at hks)
    (by
      intro k hkmem s hks
      simp only [List.mem_singleton] at hkmem
      subst hkmem
      norm_num at hks
      exact le_of_eq hks.symm)
  exact h.1

/-- C8: when the requested speaker count exceeds the number of non-empty
lines, the fixed embedding policy clamps the effective cluster count down to
`max(1, #non-empty lines)`, so it never asks k-means for more clusters than
points; in particular `lines = ["x"], num_speakers = 5` runs k-means with an
effective speaker count of 1. -/
theorem fixed_clamps_speaker_count
    (lines : List String) (num_speakers : Nat) (kmeansLabels : Nat → List Nat)
    (h : (nonEmptyEnum lines).length < num_speakers) :
    fixedEffectiveK lines num_speakers = max 1 (nonEmptyEnum lines).length ∧
    1 ≤ fixedEffectiveK lines num_speakers ∧
    (1 ≤ (nonEmptyEnum lines).length →
      fixedEffectiveK lines num_speakers ≤ (nonEmptyEnum lines).length) ∧
    fixedEffectiveK ["x"] 5 = 1 ∧
    diarize_with_embeddings_fixed ["x"] 5 kmeansLabels
      = relabel ["x"] [0] (kmeansLabels 1) := by
  have h1 : fixedEffectiveK lines num_speakers = max 1 (nonEmptyEnum lines).length := by
    unfold fixedEffectiveK
    rw [if_pos h]
  refine ⟨h1, ?_, ?_, by decide, ?_⟩
  · rw [h1]
    omega
  · intro hne
    rw [h1]
    omega
  · show relabelGo ["x"] ([0].zip (kmeansLabels (fixedEffectiveK ["x"] 5))) [] 1 ["x"]
        = relabelGo ["x"] ([0].zip (kmeansLabels 1)) [] 1 ["x"]
    have : fixedEffectiveK ["x"] 5 = 1 := by decide
    rw [this]

/-- Witness for C8 at the claim's concrete input. -/
theorem fixed_clamps_speaker_count_witness :
    fixedEffectiveK ["x"] 5 = 1 ∧
    diarize_with_embeddings_fixed ["x"] 5 (fun k => List.replicate 1 (k - k))
      = relabel ["x"] [0] (List.replicate 1 0) := by
  have h := fixed_clamps_speaker_count ["x"] 5 (fun k => List.replicate 1 (k - k)) (by decide)
  exact ⟨h.2.2.2.1, h.2.2.2.2⟩

/-! ## Missing-capability handling
(src/AIstateLight.py:183-208 and 883-925)

`ensure_text_model_loaded` pops a dedicated "Brak bibliotek" error dialog and
returns `None` when the embedding libraries are absent; `on_diarize_clicked`
then aborts without producing output. A failure inside a diarization
function would instead surface through the generic `except` handler's
"Błąd diarizacji" dialog. The state booleans stand for `HAS_NLP_LIBS`, a
previously loaded `app.emb_model`, and whether `SentenceTransformer(...)`
would load successfully. -/

def missingLibsTitle : String := "Brak bibliotek"

def missingLibsMessage : String :=
  "Do metod diarizacji z embeddingsami potrzebne są biblioteki:\n\npip install sentence-transformers scikit-learn"

def modelLoadErrorTitle : String := "Błąd ładowania modelu"

def diarizeErrorTitle : String := "Błąd diarizacji"

/-- `ensure_text_model_loaded(app)`: returns the model (if any) and the error
dialog it showed (if any). -/
def ensure_text_model_loaded (hasNlpLibs : Bool) (embModel : Option Unit)
    (loadOk : Bool) : Option Unit × Option (String × String) :=
  if !hasNlpLibs then
    (none, some (missingLibsTitle, missingLibsMessage))
  else
    match embModel with
    | some m => (some m, none)
    | none =>
      if loadOk then (some (), none)
      else (none, some (modelLoadErrorTitle, ""))

/-- Outcome of `on_diarize_clicked` for one of the text-diarization methods. -/
inductive ClickOutcome where
  | output (lines : List String)
  | abortedWithDialog (title : String) (message : String)
  | errorDialog (title : String) (message : String)
  deriving DecidableEq

/-- The method dispatch of `on_diarize_clicked` (the empty-input early return
is omitted; `lines` is assumed non-empty as guaranteed by that guard). -/
def on_diarize_clicked (hasNlpLibs : Bool) (embModel : Option Unit) (loadOk : Bool)
    (method_code : String) (lines : List String) (num_speakers max_speakers : Nat)
    (scoreK : Nat → Option ℚ) (kmeansLabels : Nat → List Nat) : ClickOutcome :=
  if method_code = "alternating" then
    ClickOutcome.output (diarize_alternating lines (max 1 num_speakers))
  else if method_code = "embeddings_fixed" then
    match ensure_text_model_loaded hasNlpLibs embModel loadOk with
    | (none, d) => ClickOutcome.abortedWithDialog (d.getD ("", "")).1 (d.getD ("", "")).2
    | (some _, _) =>
      ClickOutcome.output (diarize_with_embeddings_fixed lines (max 1 num_speakers) kmeansLabels)
  else if method_code = "embeddings_auto" then
    match ensure_text_model_loaded hasNlpLibs embModel loadOk with
    | (none, d) => ClickOutcome.abortedWithDialog (d.getD ("", "")).1 (d.getD ("", "")).2
    | (some _, _) =>
      ClickOutcome.output
        (diarize_with_embeddings_auto lines (max 2 max_speakers) scoreK kmeansLabels)
  else
    ClickOutcome.errorDialog "Błąd" ("Nieznana metoda diarizacji: " ++ method_code)

/-- Naive substring test (used to check which strings a dialog names). -/
def strContains (hay needle : String) : Bool :=
  hay.toList.tails.any (fun t => needle.toList.isPrefixOf t)

/-- C9 (amended): requesting an embedding-dependent policy without the
embedding capability makes the operation fail via the dedicated
missing-libraries dialog and abort with no output — a path distinguishable
from the generic processing-failure dialog (`"Błąd diarizacji"`) — but the
dialog does not name the requested policy. -/
theorem missing_capability_distinct_failure
    (embModel : Option Unit) (loadOk : Bool) (lines : List String)
    (num_speakers max_speakers : Nat) (scoreK : Nat → Option ℚ)
    (kmeansLabels : Nat → List Nat) (method_code : String)
    (hm : method_code = "embeddings_fixed" ∨ method_code = "embeddings_auto") :
    on_diarize_clicked false embModel loadOk method_code lines
        num_speakers max_speakers scoreK kmeansLabels
      = ClickOutcome.abortedWithDialog missingLibsTitle missingLibsMessage ∧
    missingLibsTitle ≠ diarizeErrorTitle ∧
    ∀ out : List String,
      on_diarize_clicked false embModel loadOk method_code lines
          num_speakers max_speakers scoreK kmeansLabels
        ≠ ClickOutcome.output out := by
  have hmain : on_diarize_clicked false embModel loadOk method_code lines
      num_speakers max_speakers scoreK kmeansLabels
      = ClickOutcome.abortedWithDialog missingLibsTitle missingLibsMessage := by
    rcases hm with hm | hm <;>
    · subst hm
      rfl
  exact ⟨hmain, by decide, fun out hout => by rw [hmain] at hout; exact ClickOutcome.noConfusion hout⟩

/-- Witness for C9's amended theorem at a concrete input. -/
theorem missing_capability_distinct_failure_witness :
    on_diarize_clicked false none true "embeddings_fixed" ["a", "b"] 2 4
        (fun _ => none) (fun _ => [])
      = ClickOutcome.abortedWithDialog missingLibsTitle missingLibsMessage ∧
    missingLibsTitle ≠ diarizeErrorTitle := by
  have h := missing_capability_distinct_failure none true ["a", "b"] 2 4
    (fun _ => none) (fun _ => []) "embeddings_fixed" (Or.inl rfl)
  exact ⟨h.1, h.2.1⟩

/-- C9, counterexample to the claim as stated: the missing-capability dialog
is byte-for-byte identical for the two embedding policies and contains
neither policy's name (under either naming convention), so it does not "name
the policy". -/
theorem missing_capability_does_not_name_policy :
    on_diarize_clicked false none true "embeddings_fixed" ["a", "b"] 2 4
        (fun _ => none) (fun _ => [])
      = on_diarize_clicked false none true "embeddings_auto" ["a", "b"] 2 4
        (fun _ => none) (fun _ => []) ∧
    strContains missingLibsMessage "embeddings_fixed" = false ∧
    strContains missingLibsMessage "embeddings_auto" = false ∧
    strContains missingLibsMessage "fixed_embeddings" = false ∧
    strContains missingLibsMessage "auto_embeddings" = false ∧
    strContains missingLibsTitle "embeddings" = false := by
  refine ⟨rfl, ?_, ?_, ?_, ?_, ?_⟩ <;> decide

/-! ## SegmentLineCodec (src/ui/segments.py)

`parse_segment_line` is modelled by maximal-munch scanners that are
equivalent to the source's regexes on every input: inside
`_TS_BRACKET_RE`, the timestamp class `[0-9:.,]` excludes whitespace, `-`,
`–` and `]`, so the greedy `+` can never profitably backtrack; in
`_SPK_PREFIX_RE`/`_SPK_AFTER_TS_RE`, the label class `[^:\[\]]` excludes
`:`, so a label run longer than 64 characters can never be shortened into a
match. -/

/-- `natOfDigits` reads a digit run as a natural number. -/
def natOfDigits (cs : List Char) : Nat :=
  cs.foldl (fun n c => 10 * n + (c.toNat - '0'.toNat)) 0

/-- `s.replace(',', '.')` character map. -/
def commaDot (c : Char) : Char :=
  if c = ',' then '.' else c

/-- `re.fullmatch(r"\d+(?:\.\d+)?", s)` together with `float(s)`, as an exact
rational. -/
def decimalVal (cs : List Char) : Option ℚ :=
  let d := cs.takeWhile Char.isDigit
  if d = [] then none
  else
    match cs.dropWhile Char.isDigit with
    | [] => some (mkRat (natOfDigits d) 1)
    | '.' :: r2 =>
      let f := r2.takeWhile Char.isDigit
      if f ≠ [] ∧ r2.dropWhile Char.isDigit = [] then
        some (mkRat (natOfDigits d * 10 ^ f.length + natOfDigits f) (10 ^ f.length))
      else none
    | _ => none

/-- `re.fullmatch(r"(?P<h>\d{1,2}):(?P<m>\d{2}):(?P<sec>\d{2})(?:\.(?P<ms>\d{1,3}))?", s)`
with the value `h*3600 + m*60 + sec + int(ms.ljust(3,"0")[:3])/1000`. -/
def hmsVal (cs : List Char) : Option ℚ :=
  let h := cs.takeWhile Char.isDigit
  if h = [] ∨ 2 < h.length then none
  else
    match cs.dropWhile Char.isDigit with
    | ':' :: r2 =>
      let m := r2.takeWhile Char.isDigit
      if m.length ≠ 2 then none
      else
        match r2.dropWhile Char.isDigit with
        | ':' :: r4 =>
          let sec := r4.takeWhile Char.isDigit
          if sec.length ≠ 2 then none
          else
            let base : Nat :=
              natOfDigits h * 3600 + natOfDigits m * 60 + natOfDigits sec
            match r4.dropWhile Char.isDigit with
            | [] => some (mkRat base 1)
            | '.' :: r6 =>
              let ms := r6.takeWhile Char.isDigit
              if ms ≠ [] ∧ ms.length ≤ 3 ∧ r6.dropWhile Char.isDigit = [] then
                some (mkRat
                  (base * 1000 + natOfDigits (ms ++ List.replicate (3 - ms.length) '0')) 1000)
              else none
            | _ => none
        | _ => none
    | _ => none

/-- `_parse_time_to_seconds(s)` (src/ui/segments.py:32-52): strip, normalise
`,` to `.`, then accept either a plain decimal-seconds number or an
`H:MM:SS(.fraction)` form. -/
def _parse_time_to_seconds (s : String) : Option ℚ :=
  let cs := (pyStripL s.toList).map commaDot
  if cs = [] then none
  else
    match decimalVal cs with
    | some v => some v
    | none => hmsVal cs

/-- `_TS_BRACKET_RE` matched at the head of the input: `[`, a non-empty
`[0-9:.,]` run, optional whitespace, `-` or `–`, optional whitespace, a
non-empty `[0-9:.,]` run, `]`. Returns the two timestamp groups, the whole
matched text (`group(0)`) and the remaining input. -/
def tsBracketMatchAt (cs : List Char) : Option (List Char × List Char × List Char × List Char) :=
  match cs with
  | [] => none
  | c :: cs1 =>
    if c = '[' then
      let a := cs1.takeWhile tsClass
      if a = [] then none
      else
        let r1 := cs1.dropWhile tsClass
        let ws1 := r1.takeWhile isWs
        match r1.dropWhile isWs with
        | sep :: r3 =>
          if sep = '-' ∨ sep = '–' then
            let ws2 := r3.takeWhile isWs
            let r4 := r3.dropWhile isWs
            let b := r4.takeWhile tsClass
            if b = [] then none
            else
              match r4.dropWhile tsClass with
              | c2 :: r6 =>
                if c2 = ']' then
                  some (a, b, '[' :: (a ++ ws1 ++ sep :: (ws2 ++ b ++ [']'])), r6)
                else none
              | [] => none
          else none
        | [] => none
    else none

/-- `_TS_BRACKET_RE.search`: leftmost match. Returns
`(text before the match, group a, group b, group(0), text after)`. -/
def tsBracketSearch : List Char → Option (List Char × List Char × List Char × List Char × List Char)
  | [] => none
  | c :: cs =>
    match tsBracketMatchAt (c :: cs) with
    | some (a, b, mt, rest) => some ([], a, b, mt, rest)
    | none =>
      match tsBracketSearch cs with
      | some (pre, a, b, mt, rest) => some (c :: pre, a, b, mt, rest)
      | none => none

/-- The shared core of `_SPK_PREFIX_RE` and `_SPK_AFTER_TS_RE`: a run of
1 to 64 characters excluding `:`/`[`/`]`, followed by `:` and optional
whitespace. Returns the label run and the rest after `:\s*`. -/
def spkSplitCore (cs : List Char) : Option (List Char × List Char) :=
  let run := cs.takeWhile goodSpk
  if 1 ≤ run.length ∧ run.length ≤ 64 then
    match cs.dropWhile goodSpk with
    | c :: rest => if c = ':' then some (run, rest.dropWhile isWs) else none
    | [] => none
  else none

/-- The parsed view of one segment line (the `Segment` dataclass of
src/ui/segments.py:55-63). -/
structure Segment where
  block_number : Nat
  ts_bracket : String
  start_s : ℚ
  end_s : ℚ
  speaker : String
  text : String
  speaker_position : String
  deriving DecidableEq, Repr

/-- The speaker-before-timestamp detection step of `parse_segment_line`
(lines 82-86): try `_SPK_PREFIX_RE` on the stripped line and accept only if
the remainder still contains a timestamp bracket. Returns
`(speaker, speaker_position, rest)`. -/
def parsePrefixStep (rest0 : List Char) : List Char × String × List Char :=
  match spkSplitCore rest0 with
  | some (spk, r) =>
    if (tsBracketSearch r).isSome then (pyStripL spk, "before_ts", pyStripL r)
    else (([] : List Char), "none", rest0)
  | none => (([] : List Char), "none", rest0)

/-- The speaker-after-timestamp detection step of `parse_segment_line`
(lines 101-107): if no speaker was found yet and there is text after the
bracket, try `_SPK_AFTER_TS_RE` on it. Returns
`(speaker, speaker_position, text)`. -/
def parseAfterSpeaker (speaker0 : List Char) (pos0 : String) (after0 : List Char) :
    List Char × String × List Char :=
  if speaker0 = [] ∧ after0 ≠ [] then
    match spkSplitCore (after0.dropWhile isWs) with
    | some (spk, txt) => (pyStripL spk, "after_ts", pyStripL txt)
    | none => (speaker0, pos0, after0)
  else (speaker0, pos0, after0)

/-- `parse_segment_line(line, block_number)` (src/ui/segments.py:66-128) on
character lists. -/
def parseSegCore (raw0 : List Char) (block_number : Nat) : Option Segment :=
  let raw := rstripNlL raw0
  if pyStripL raw = [] then none
  else
    let rest0 := pyStripL raw
    let st := parsePrefixStep rest0
    match tsBracketSearch st.2.2 with
    | none => none
    | some (pre, a, b, mt, post) =>
      match _parse_time_to_seconds (String.mk a), _parse_time_to_seconds (String.mk b) with
      | some va, some vb =>
        let after0 := pyStripL post
        let before := pyStripL pre
        let st2 := parseAfterSpeaker st.1 st.2.1 after0
        let text := if st2.2.2 = [] ∧ before ≠ [] ∧ st2.2.1 = "none" then before else st2.2.2
        let sb := if vb < va then (vb, va) else (va, vb)
        some {
          block_number := block_number
          ts_bracket := String.mk mt
          start_s := sb.1
          end_s := sb.2
          speaker := String.mk st2.1
          text := String.mk text
          speaker_position := st2.2.1 }
      | _, _ => none

/-- `parse_segment_line` on strings. -/
def parse_segment_line (line : String) (block_number : Nat) : Option Segment :=
  parseSegCore line.toList block_number

/-- Worker for `mapWsRuns`: `run` holds the current maximal whitespace run,
reversed. -/
def mapWsRunsGo (f : List Char → List Char) (run : List Char) :
    List Char → List Char
  | [] => if run.isEmpty then [] else f run.reverse
  | c :: cs =>
    if isWs c then
      mapWsRunsGo f (c :: run) cs
    else
      (if run.isEmpty then [] else f run.reverse) ++ c :: mapWsRunsGo f [] cs

/-- Apply `f` to every maximal whitespace run of the input, keeping the
other characters. -/
def mapWsRuns (f : List Char → List Char) (l : List Char) : List Char :=
  mapWsRunsGo f [] l

/-- `re.sub(r"\s*\n\s*", " ", _)` acts on each maximal whitespace run: a run
containing a newline becomes one space. -/
def nlRunFix (run : List Char) : List Char :=
  if run.contains '\n' then [' '] else run

/-- `re.sub(r"\s{2,}", " ", _)` acts on each maximal whitespace run: a run of
two or more characters becomes one space. -/
def wsRunFix (run : List Char) : List Char :=
  if 2 ≤ run.length then [' '] else run

/-- The text normalisation of `SegmentEditDialog.build_new_line`. -/
def normalizeEditedText (t : String) : String :=
  String.mk (pyStripL (mapWsRuns wsRunFix (mapWsRuns nlRunFix t.toList)))

/-- Python `str.rstrip()` on a `String`. -/
def pyRStrip (s : String) : String :=
  String.mk (pyRStripL s.toList)

/-- `SegmentEditDialog.build_new_line` (src/ui/segments.py:523-546): the
formatter side of the codec, reconstructing the line from the dialog's
speaker/text fields and the segment's bracket, respecting the original
speaker position. -/
def build_new_line (seg : Segment) (speakerInput textInput : String) : String :=
  let speaker := pyStrip speakerInput
  let text := normalizeEditedText textInput
  let ts := seg.ts_bracket
  if seg.speaker_position = "before_ts" then
    if speaker ≠ "" then pyRStrip (speaker ++ ": " ++ ts ++ " " ++ text)
    else pyRStrip (ts ++ " " ++ text)
  else if seg.speaker_position = "after_ts" then
    if speaker ≠ "" then pyRStrip (ts ++ " " ++ speaker ++ ": " ++ text)
    else pyRStrip (ts ++ " " ++ text)
  else
    if speaker ≠ "" then pyRStrip (ts ++ " " ++ speaker ++ ": " ++ text)
    else pyRStrip (ts ++ " " ++ text)

/-! ### Scanner helper lemmas -/

lemma takeWhile_append_all (p : Char → Bool) (xs ys : List Char)
    (h1 : ∀ x ∈ xs, p x = true)
    (h2 : ∀ c, ys.head? = some c → p c = false) :
    (xs ++ ys).takeWhile p = xs := by
  induction xs with
  | nil =>
    cases ys with
    | nil => rfl
    | cons c cs => simp [List.takeWhile_cons, h2 c rfl]
  | cons x xs ih =>
    simp only [List.cons_append, List.takeWhile_cons, h1 x (List.mem_cons_self _ _), if_pos]
    rw [ih (fun u hu => h1 u (List.mem_cons_of_mem _ hu))]

lemma dropWhile_append_all (p : Char → Bool) (xs ys : List Char)
    (h1 : ∀ x ∈ xs, p x = true)
    (h2 : ∀ c, ys.head? = some c → p c = false) :
    (xs ++ ys).dropWhile p = ys := by
  induction xs with
  | nil =>
    cases ys with
    | nil => rfl
    | cons c cs => simp [List.dropWhile_cons, h2 c rfl]
  | cons x xs ih =>
    simp only [List.cons_append, List.dropWhile_cons, h1 x (List.mem_cons_self _ _), if_pos]
    rw [ih (fun u hu => h1 u (List.mem_cons_of_mem _ hu))]

lemma dropWhile_eq_self_of_head (p : Char → Bool) (l : List Char)
    (h : ∀ c, l.head? = some c → p c = false) :
    l.dropWhile p = l := by
  cases l with
  | nil => rfl
  | cons c cs => simp [List.dropWhile_cons, h c rfl]

lemma dropWhile_eq_self_head_not (p : Char → Bool) (l : List Char)
    (h : l.dropWhile p = l) :
    ∀ c, l.head? = some c → p c = false := by
  intro c hc
  cases l with
  | nil => simp at hc
  | cons a cs =>
    simp only [List.head?_cons, Option.some.injEq] at hc
    by_cases hp : p a
    · exfalso
      rw [List.dropWhile_cons, if_pos hp] at h
      have hlen := congrArg List.length h
      have hle : (cs.dropWhile p).length ≤ cs.length :=
        List.Sublist.length_le (List.dropWhile_sublist p)
      simp only [List.length_cons] at hlen
      omega
    · exact hc ▸ (by simpa using hp)

lemma isWs_not_tsClass (c : Char) (h : isWs c = true) : tsClass c = false := by
  simp only [isWs, Bool.or_eq_true, beq_iff_eq] at h
  rcases h with ((((h | h) | h) | h) | h) | h <;> subst h <;> decide

lemma tsClass_not_isWs (c : Char) (h : tsClass c = true) : isWs c = false := by
  cases hws : isWs c with
  | false => rfl
  | true =>
    simp only [isWs, Bool.or_eq_true, beq_iff_eq] at hws
    rcases hws with ((((h2 | h2) | h2) | h2) | h2) | h2 <;> subst h2 <;> simp [tsClass] at h

lemma goodSpk_not_isWs_head (w1 : List Char) (sep : Char) (z : List Char) (p : Char → Bool)
    (hw1 : ∀ c ∈ w1, isWs c = true)
    (hws : ∀ c, isWs c = true → p c = false)
    (hsep : p sep = false) :
    ∀ c, (w1 ++ sep :: z).head? = some c → p c = false := by
  intro c hc
  cases w1 with
  | nil =>
    simp only [List.nil_append, List.head?_cons, Option.some.injEq] at hc
    exact hc ▸ hsep
  | cons w ws =>
    simp only [List.cons_append, List.head?_cons, Option.some.injEq] at hc
    exact hc ▸ hws w (hw1 w (List.mem_cons_self _ _))

lemma head_of_ne_nil (l z : List Char) (p : Char → Bool)
    (hne : l ≠ []) (hall : ∀ c ∈ l, p c = false) :
    ∀ c, (l ++ z).head? = some c → p c = false := by
  intro c hc
  cases l with
  | nil => exact absurd rfl hne
  | cons a as =>
    simp only [List.cons_append, List.head?_cons, Option.some.injEq] at hc
    exact hc ▸ hall a (List.mem_cons_self _ _)

/-! ### Python-strip helper lemmas -/

lemma pyStripL_id (l : List Char)
    (hh : ∀ c, l.head? = some c → isWs c = false)
    (hl : ∀ c, l.getLast? = some c → isWs c = false) :
    pyStripL l = l := by
  unfold pyStripL
  rw [dropWhile_eq_self_of_head _ _ hh]
  rw [dropWhile_eq_self_of_head _ _ (fun c hc => hl c (by rwa [List.head?_reverse] at hc))]
  exact l.reverse_reverse

lemma pyRStripL_id (l : List Char)
    (hl : ∀ c, l.getLast? = some c → isWs c = false) :
    pyRStripL l = l := by
  unfold pyRStripL
  rw [dropWhile_eq_self_of_head _ _ (fun c hc => hl c (by rwa [List.head?_reverse] at hc))]
  exact l.reverse_reverse

lemma rstripNlL_id (l : List Char)
    (hl : ∀ c, l.getLast? = some c → (c == '\n') = false) :
    rstripNlL l = l := by
  unfold rstripNlL
  rw [dropWhile_eq_self_of_head _ _ (fun c hc => hl c (by rwa [List.head?_reverse] at hc))]
  exact l.reverse_reverse

lemma strip_id_parts (l : List Char) (h : pyStripL l = l) :
    l.dropWhile isWs = l ∧ l.reverse.dropWhile isWs = l.reverse := by
  have hlen := congrArg List.length h
  unfold pyStripL at h hlen
  have h1 : ((l.dropWhile isWs).reverse.dropWhile isWs).length ≤ (l.dropWhile isWs).length := by
    calc ((l.dropWhile isWs).reverse.dropWhile isWs).length
        ≤ (l.dropWhile isWs).reverse.length :=
          ((l.dropWhile isWs).reverse.dropWhile_sublist isWs).length_le
      _ = (l.dropWhile isWs).length := List.length_reverse _
  have h2 : (l.dropWhile isWs).length ≤ l.length := (l.dropWhile_sublist isWs).length_le
  simp only [List.length_reverse] at hlen
  have hlen1 : (l.dropWhile isWs).length = l.length := by omega
  have hu : l.dropWhile isWs = l := (l.dropWhile_sublist isWs).eq_of_length hlen1
  refine ⟨hu, ?_⟩
  rw [hu] at hlen
  have hlen2 : (l.reverse.dropWhile isWs).length = l.reverse.length := by
    simp only [List.length_reverse]
    omega
  exact List.Sublist.eq_of_length (List.dropWhile_sublist isWs) hlen2

lemma strip_id_head (l : List Char) (h : pyStripL l = l) :
    ∀ c, l.head? = some c → isWs c = false :=
  dropWhile_eq_self_head_not _ _ (strip_id_parts l h).1

lemma strip_id_last (l : List Char) (h : pyStripL l = l) :
    ∀ c, l.getLast? = some c → isWs c = false := by
  intro c hc
  exact dropWhile_eq_self_head_not _ _ (strip_id_parts l h).2 c (by rwa [List.head?_reverse])

lemma pyStripL_cons_ws (c : Char) (t : List Char) (hc : isWs c = true) :
    pyStripL (c :: t) = pyStripL t := by
  unfold pyStripL
  rw [List.dropWhile_cons, if_pos hc]

lemma rstrip_id_parts (l : List Char) (h : pyRStripL l = l) :
    l.reverse.dropWhile isWs = l.reverse := by
  have hlen := congrArg List.length h
  unfold pyRStripL at hlen
  simp only [List.length_reverse] at hlen
  exact List.Sublist.eq_of_length (List.dropWhile_sublist isWs)
    (by rw [hlen, List.length_reverse])

lemma rstrip_id_last (l : List Char) (h : pyRStripL l = l) :
    ∀ c, l.getLast? = some c → isWs c = false := by
  intro c hc
  exact dropWhile_eq_self_head_not _ _ (rstrip_id_parts l h) c (by rwa [List.head?_reverse])

lemma sep_not_tsClass (sep : Char) (h : sep = '-' ∨ sep = '–') : tsClass sep = false := by
  rcases h with h | h <;> subst h <;> decide

lemma sep_not_isWs (sep : Char) (h : sep = '-' ∨ sep = '–') : isWs sep = false := by
  rcases h with h | h <;> subst h <;> decide

/-- The canonical matched text of a timestamp bracket:
`[` + a + ws + sep + ws + b + `]`. -/
def mkTs (a w1 : List Char) (sep : Char) (w2 b : List Char) : List Char :=
  '[' :: (a ++ w1 ++ sep :: (w2 ++ b ++ [']']))

lemma mkTs_append (a w1 : List Char) (sep : Char) (w2 b rest : List Char) :
    mkTs a w1 sep w2 b ++ rest
      = '[' :: (a ++ (w1 ++ sep :: (w2 ++ (b ++ ']' :: rest)))) := by
  simp [mkTs]

lemma tsBracketMatchAt_schema (a w1 w2 b rest : List Char) (sep : Char)
    (hane : a ≠ []) (hac : ∀ c ∈ a, tsClass c = true)
    (hbne : b ≠ []) (hbc : ∀ c ∈ b, tsClass c = true)
    (hw1 : ∀ c ∈ w1, isWs c = true) (hw2 : ∀ c ∈ w2, isWs c = true)
    (hsep : sep = '-' ∨ sep = '–') :
    tsBracketMatchAt ('[' :: (a ++ (w1 ++ sep :: (w2 ++ (b ++ ']' :: rest)))))
      = some (a, b, mkTs a w1 sep w2 b, rest) := by
  have hsts := sep_not_tsClass sep hsep
  have hsws := sep_not_isWs sep hsep
  have hheadA : ∀ c, (w1 ++ sep :: (w2 ++ (b ++ ']' :: rest))).head? = some c →
      tsClass c = false :=
    goodSpk_not_isWs_head w1 sep _ tsClass hw1 isWs_not_tsClass hsts
  have hta := takeWhile_append_all tsClass a _ hac hheadA
  have hda := dropWhile_append_all tsClass a _ hac hheadA
  have hheadW1 : ∀ c, ((sep :: (w2 ++ (b ++ ']' :: rest))) : List Char).head? = some c →
      isWs c = false := by
    intro c hc
    simp only [List.head?_cons, Option.some.injEq] at hc
    exact hc ▸ hsws
  have htw1 := takeWhile_append_all isWs w1 _ hw1 hheadW1
  have hdw1 := dropWhile_append_all isWs w1 _ hw1 hheadW1
  have hheadB : ∀ c, (b ++ ']' :: rest).head? = some c → isWs c = false :=
    head_of_ne_nil b _ isWs hbne (fun c hc => tsClass_not_isWs c (hbc c hc))
  have htw2 := takeWhile_append_all isWs w2 _ hw2 hheadB
  have hdw2 := dropWhile_append_all isWs w2 _ hw2 hheadB
  have hheadBr : ∀ c, ((']' :: rest) : List Char).head? = some c → tsClass c = false := by
    intro c hc
    simp only [List.head?_cons, Option.some.injEq] at hc
    exact hc ▸ (by decide)
  have htb := takeWhile_append_all tsClass b _ hbc hheadBr
  have hdb := dropWhile_append_all tsClass b _ hbc hheadBr
  unfold tsBracketMatchAt
  simp only [hta, hda, htw1, hdw1, htw2, hdw2, htb, hdb,
    if_pos (rfl : ('[' : Char) = '['), if_neg hane, if_pos hsep, if_neg hbne,
    if_pos (rfl : (']' : Char) = ']')]
  simp [mkTs]

lemma tsBracketMatchAt_not_bracket (c : Char) (cs : List Char) (hc : ¬ c = '[') :
    tsBracketMatchAt (c :: cs) = none := by
  simp only [tsBracketMatchAt]
  rw [if_neg hc]

lemma tsBracketSearch_schema (a w1 w2 b rest : List Char) (sep : Char)
    (hane : a ≠ []) (hac : ∀ c ∈ a, tsClass c = true)
    (hbne : b ≠ []) (hbc : ∀ c ∈ b, tsClass c = true)
    (hw1 : ∀ c ∈ w1, isWs c = true) (hw2 : ∀ c ∈ w2, isWs c = true)
    (hsep : sep = '-' ∨ sep = '–') :
    tsBracketSearch (mkTs a w1 sep w2 b ++ rest)
      = some ([], a, b, mkTs a w1 sep w2 b, rest) := by
  rw [mkTs_append]
  unfold tsBracketSearch
  rw [tsBracketMatchAt_schema a w1 w2 b rest sep hane hac hbne hbc hw1 hw2 hsep]

lemma tsBracketSearch_prepend (P cs : List Char) (hP : ∀ c ∈ P, ¬ c = '[')
    (pre a b mt rest : List Char)
    (h : tsBracketSearch cs = some (pre, a, b, mt, rest)) :
    tsBracketSearch (P ++ cs) = some (P ++ pre, a, b, mt, rest) := by
  induction P with
  | nil => simpa using h
  | cons c P ih =>
    have hres := ih (fun u hu => hP u (List.mem_cons_of_mem _ hu))
    show tsBracketSearch (c :: (P ++ cs)) = _
    unfold tsBracketSearch
    rw [tsBracketMatchAt_not_bracket c _ (hP c (List.mem_cons_self _ _)), hres]
    rfl

/-! ### Speaker-label and parse-step lemmas -/

lemma spkSplitCore_label (spk rest : List Char)
    (hne : spk ≠ []) (hlen : spk.length ≤ 64)
    (hgood : ∀ c ∈ spk, goodSpk c = true) :
    spkSplitCore (spk ++ ':' :: rest) = some (spk, rest.dropWhile isWs) := by
  have hhead : ∀ c, ((':' :: rest) : List Char).head? = some c → goodSpk c = false := by
    intro c hc
    simp only [List.head?_cons, Option.some.injEq] at hc
    exact hc ▸ (by decide)
  have ht := takeWhile_append_all goodSpk spk _ hgood hhead
  have hd := dropWhile_append_all goodSpk spk _ hgood hhead
  unfold spkSplitCore
  simp only [ht, hd]
  rw [if_pos ⟨List.length_pos.mpr hne, hlen⟩]
  rfl

lemma spkSplitCore_long (spk rest2 : List Char)
    (hlen : 64 < spk.length)
    (hgood : ∀ c ∈ spk, goodSpk c = true)
    (hhead : ∀ c, rest2.head? = some c → goodSpk c = false) :
    spkSplitCore (spk ++ rest2) = none := by
  have ht := takeWhile_append_all goodSpk spk _ hgood hhead
  unfold spkSplitCore
  simp only [ht]
  rw [if_neg (by omega)]

lemma spkSplitCore_head_bad (cs : List Char)
    (h : ∀ c, cs.head? = some c → goodSpk c = false) :
    spkSplitCore cs = none := by
  have ht : cs.takeWhile goodSpk = [] := by
    cases cs with
    | nil => rfl
    | cons c cs2 => simp [List.takeWhile_cons, h c rfl]
  unfold spkSplitCore
  simp only [ht]
  rw [if_neg (by simp)]

lemma spkSplitCore_inv (cs spk r : List Char) (h : spkSplitCore cs = some (spk, r)) :
    spk.length ≤ 64 ∧ ∀ c ∈ spk, goodSpk c = true := by
  unfold spkSplitCore at h
  simp only [] at h
  split at h
  · split at h
    · split at h
      · simp only [Option.some.injEq, Prod.mk.injEq] at h
        refine ⟨h.1 ▸ ?_, ?_⟩
        · exact (by assumption : 1 ≤ (cs.takeWhile goodSpk).length ∧
            (cs.takeWhile goodSpk).length ≤ 64).2
        · intro c hc
          rw [← h.1] at hc
          exact List.mem_takeWhile_imp hc
      · exact absurd h (by simp)
    · exact absurd h (by simp)
  · exact absurd h (by simp)

lemma pyStripL_length_le (l : List Char) : (pyStripL l).length ≤ l.length := by
  unfold pyStripL
  calc (((l.dropWhile isWs).reverse.dropWhile isWs).reverse).length
      = ((l.dropWhile isWs).reverse.dropWhile isWs).length := List.length_reverse _
    _ ≤ (l.dropWhile isWs).reverse.length :=
        List.Sublist.length_le (List.dropWhile_sublist _)
    _ = (l.dropWhile isWs).length := List.length_reverse _
    _ ≤ l.length := List.Sublist.length_le (List.dropWhile_sublist _)

lemma pyStripL_subset (l : List Char) : pyStripL l ⊆ l := by
  unfold pyStripL
  intro c hc
  rw [List.mem_reverse] at hc
  have hc2 := (List.dropWhile_sublist (l := (l.dropWhile isWs).reverse) isWs).subset hc
  rw [List.mem_reverse] at hc2
  exact (List.dropWhile_sublist (l := l) isWs).subset hc2

lemma swap_min_max (va vb : ℚ) :
    (if vb < va then (vb, va) else (va, vb)) = (min va vb, max va vb) := by
  by_cases h : vb < va
  · rw [if_pos h, min_eq_right h.le, max_eq_left h.le]
  · have hle : va ≤ vb := not_lt.mp h
    rw [if_neg h, min_eq_left hle, max_eq_right hle]

lemma parsePrefixStep_head_bad (rest0 : List Char)
    (h : ∀ c, rest0.head? = some c → goodSpk c = false) :
    parsePrefixStep rest0 = ([], "none", rest0) := by
  unfold parsePrefixStep
  rw [spkSplitCore_head_bad rest0 h]

lemma parsePrefixStep_label (spk r : List Char) (rest0 : List Char)
    (hsplit : spkSplitCore rest0 = some (spk, r))
    (hsearch : (tsBracketSearch r).isSome = true) :
    parsePrefixStep rest0 = (pyStripL spk, "before_ts", pyStripL r) := by
  unfold parsePrefixStep
  rw [hsplit]
  simp only [hsearch, if_pos]

lemma parsePrefixStep_none (rest0 : List Char)
    (hsplit : spkSplitCore rest0 = none) :
    parsePrefixStep rest0 = ([], "none", rest0) := by
  unfold parsePrefixStep
  rw [hsplit]

lemma parseAfterSpeaker_label (after0 spk txt : List Char) (pos0 : String)
    (hne : after0 ≠ [])
    (hsplit : spkSplitCore (after0.dropWhile isWs) = some (spk, txt)) :
    parseAfterSpeaker [] pos0 after0 = (pyStripL spk, "after_ts", pyStripL txt) := by
  unfold parseAfterSpeaker
  rw [if_pos ⟨rfl, hne⟩, hsplit]

lemma parseAfterSpeaker_nolabel (after0 : List Char) (pos0 : String)
    (hsplit : spkSplitCore (after0.dropWhile isWs) = none) :
    parseAfterSpeaker [] pos0 after0 = ([], pos0, after0) := by
  unfold parseAfterSpeaker
  by_cases hne : after0 = []
  · rw [if_neg (by simp [hne])]
  · rw [if_pos ⟨rfl, hne⟩, hsplit]

lemma parseAfterSpeaker_hasSpeaker (speaker0 after0 : List Char) (pos0 : String)
    (hne : speaker0 ≠ []) :
    parseAfterSpeaker speaker0 pos0 after0 = (speaker0, pos0, after0) := by
  unfold parseAfterSpeaker
  rw [if_neg (by simp [hne])]

lemma getLast?_append_right (X t : List Char) (h : t ≠ []) :
    (X ++ t).getLast? = t.getLast? := by
  rw [← List.head?_reverse, List.reverse_append, ← List.head?_reverse]
  cases hr : t.reverse with
  | nil => exact absurd (by simpa using congrArg List.reverse hr) h
  | cons c cs => rfl

lemma not_nl_of_not_ws (c : Char) (h : isWs c = false) : (c == '\n') = false := by
  cases hnl : c == '\n' with
  | false => rfl
  | true =>
    have : c = '\n' := by simpa using hnl
    subst this
    simp [isWs] at h

lemma mkTs_head (a w1 : List Char) (sep : Char) (w2 b post : List Char) :
    (mkTs a w1 sep w2 b ++ post).head? = some '[' := by
  rw [mkTs_append]
  rfl

lemma mkTs_append_ne_nil (a w1 : List Char) (sep : Char) (w2 b post : List Char) :
    mkTs a w1 sep w2 b ++ post ≠ [] := by
  rw [mkTs_append]
  simp

/-- Shared line-level facts for a line that starts with the timestamp
bracket: it survives `rstrip("\n")` and `strip()` unchanged, provided the
tail behaves. -/
lemma bracket_line_strip_id (a w1 : List Char) (sep : Char) (w2 b post : List Char)
    (hlast : ∀ c, (mkTs a w1 sep w2 b ++ post).getLast? = some c → isWs c = false) :
    rstripNlL (mkTs a w1 sep w2 b ++ post) = mkTs a w1 sep w2 b ++ post ∧
    pyStripL (mkTs a w1 sep w2 b ++ post) = mkTs a w1 sep w2 b ++ post := by
  constructor
  · exact rstripNlL_id _ (fun c hc => not_nl_of_not_ws c (hlast c hc))
  · refine pyStripL_id _ ?_ hlast
    intro c hc
    rw [mkTs_head] at hc
    simp only [Option.some.injEq] at hc
    exact hc ▸ (by decide)

/-- Parse of a canonical line `"[a sep b]" ++ post` for a tail `post` whose
strip is `u`, when no speaker was written before the bracket; the resulting
speaker/text/position are determined by the after-bracket step on `u`. -/
lemma parseSegCore_bracket_first
    (a w1 w2 b post u : List Char) (sep : Char) (va vb : ℚ) (bn : Nat)
    (hane : a ≠ []) (hac : ∀ c ∈ a, tsClass c = true)
    (hbne : b ≠ []) (hbc : ∀ c ∈ b, tsClass c = true)
    (hw1 : ∀ c ∈ w1, isWs c = true) (hw2 : ∀ c ∈ w2, isWs c = true)
    (hsep : sep = '-' ∨ sep = '–')
    (hva : _parse_time_to_seconds (String.mk a) = some va)
    (hvb : _parse_time_to_seconds (String.mk b) = some vb)
    (hlast : ∀ c, (mkTs a w1 sep w2 b ++ post).getLast? = some c → isWs c = false)
    (hpost : pyStripL post = u) :
    parseSegCore (mkTs a w1 sep w2 b ++ post) bn
      = some {
          block_number := bn
          ts_bracket := String.mk (mkTs a w1 sep w2 b)
          start_s := min va vb
          end_s := max va vb
          speaker := String.mk (parseAfterSpeaker [] "none" u).1
          text := String.mk (parseAfterSpeaker [] "none" u).2.2
          speaker_position := (parseAfterSpeaker [] "none" u).2.1 } := by
  have hid := bracket_line_strip_id a w1 sep w2 b post hlast
  have hprefix : parsePrefixStep (mkTs a w1 sep w2 b ++ post) = ([], "none", mkTs a w1 sep w2 b ++ post) := by
    refine parsePrefixStep_head_bad _ ?_
    intro c hc
    rw [mkTs_head] at hc
    simp only [Option.some.injEq] at hc
    exact hc ▸ (by decide)
  have hsearch := tsBracketSearch_schema a w1 w2 b post sep hane hac hbne hbc hw1 hw2 hsep
  unfold parseSegCore
  simp only [hid.1, hid.2, hprefix, hsearch, hva, hvb, hpost]
  rw [if_neg (mkTs_append_ne_nil a w1 sep w2 b post)]
  have hnotext : ¬((parseAfterSpeaker [] "none" u).2.2 = [] ∧
      pyStripL ([] : List Char) ≠ [] ∧ (parseAfterSpeaker [] "none" u).2.1 = "none") :=
    fun h => h.2.1 rfl
  rw [if_neg hnotext, swap_min_max]

/-- Parse of a canonical line `spk ++ ": " ++ "[a sep b]" ++ post` with a
well-formed speaker label before the bracket. -/
lemma parseSegCore_before_form
    (spk a w1 w2 b post u : List Char) (sep : Char) (va vb : ℚ) (bn : Nat)
    (hane : a ≠ []) (hac : ∀ c ∈ a, tsClass c = true)
    (hbne : b ≠ []) (hbc : ∀ c ∈ b, tsClass c = true)
    (hw1 : ∀ c ∈ w1, isWs c = true) (hw2 : ∀ c ∈ w2, isWs c = true)
    (hsep : sep = '-' ∨ sep = '–')
    (hva : _parse_time_to_seconds (String.mk a) = some va)
    (hvb : _parse_time_to_seconds (String.mk b) = some vb)
    (hspkne : spk ≠ []) (hspklen : spk.length ≤ 64)
    (hspkgood : ∀ c ∈ spk, goodSpk c = true)
    (hspkstrip : pyStripL spk = spk)
    (hpostne : post ≠ [])
    (hlastp : ∀ c, post.getLast? = some c → isWs c = false)
    (hpost : pyStripL post = u) :
    parseSegCore (spk ++ ':' :: ' ' :: (mkTs a w1 sep w2 b ++ post)) bn
      = some {
          block_number := bn
          ts_bracket := String.mk (mkTs a w1 sep w2 b)
          start_s := min va vb
          end_s := max va vb
          speaker := String.mk spk
          text := String.mk u
          speaker_position := "before_ts" } := by
  have hZne : mkTs a w1 sep w2 b ++ post ≠ [] := mkTs_append_ne_nil a w1 sep w2 b post
  have hlastZ : ∀ c, (mkTs a w1 sep w2 b ++ post).getLast? = some c → isWs c = false := by
    intro c hc
    rw [getLast?_append_right _ _ hpostne] at hc
    exact hlastp c hc
  have hZid := bracket_line_strip_id a w1 sep w2 b post hlastZ
  have hlastLine : ∀ c, (spk ++ ':' :: ' ' :: (mkTs a w1 sep w2 b ++ post)).getLast? = some c →
      isWs c = false := by
    intro c hc
    rw [show (':' :: ' ' :: (mkTs a w1 sep w2 b ++ post) : List Char)
        = [':', ' '] ++ (mkTs a w1 sep w2 b ++ post) from rfl] at hc
    rw [getLast?_append_right spk _ (by simp), getLast?_append_right _ _ hZne] at hc
    exact hlastZ c hc
  have hheadLine : ∀ c, (spk ++ ':' :: ' ' :: (mkTs a w1 sep w2 b ++ post)).head? = some c →
      isWs c = false := by
    intro c hc
    cases hs : spk with
    | nil => exact absurd hs hspkne
    | cons s0 srest =>
      rw [hs] at hc
      simp only [List.cons_append, List.head?_cons, Option.some.injEq] at hc
      exact hc ▸ strip_id_head spk hspkstrip s0 (by rw [hs]; rfl)
  have hlineStrip : pyStripL (spk ++ ':' :: ' ' :: (mkTs a w1 sep w2 b ++ post))
      = spk ++ ':' :: ' ' :: (mkTs a w1 sep w2 b ++ post) :=
    pyStripL_id _ hheadLine hlastLine
  have hlineNl : rstripNlL (spk ++ ':' :: ' ' :: (mkTs a w1 sep w2 b ++ post))
      = spk ++ ':' :: ' ' :: (mkTs a w1 sep w2 b ++ post) :=
    rstripNlL_id _ (fun c hc => not_nl_of_not_ws c (hlastLine c hc))
  have hdropZ : ((' ' :: (mkTs a w1 sep w2 b ++ post)) : List Char).dropWhile isWs
      = mkTs a w1 sep w2 b ++ post := by
    rw [List.dropWhile_cons, if_pos (by decide)]
    refine dropWhile_eq_self_of_head isWs _ ?_
    intro c hc
    rw [mkTs_head] at hc
    simp only [Option.some.injEq] at hc
    exact hc ▸ (by decide)
  have hsplit : spkSplitCore (spk ++ ':' :: ' ' :: (mkTs a w1 sep w2 b ++ post))
      = some (spk, mkTs a w1 sep w2 b ++ post) := by
    rw [spkSplitCore_label spk _ hspkne hspklen hspkgood, hdropZ]
  have hsearchZ := tsBracketSearch_schema a w1 w2 b post sep hane hac hbne hbc hw1 hw2 hsep
  have hprefix : parsePrefixStep (spk ++ ':' :: ' ' :: (mkTs a w1 sep w2 b ++ post))
      = (spk, "before_ts", mkTs a w1 sep w2 b ++ post) := by
    rw [parsePrefixStep_label spk (mkTs a w1 sep w2 b ++ post) _ hsplit
      (by rw [hsearchZ]; rfl)]
    rw [hspkstrip, hZid.2]
  unfold parseSegCore
  simp only [hlineNl, hlineStrip, hprefix, hsearchZ, hva, hvb, hpost]
  rw [if_neg (by simp [hspkne] : ¬(spk ++ ':' :: ' ' :: (mkTs a w1 sep w2 b ++ post) = []))]
  rw [parseAfterSpeaker_hasSpeaker spk u "before_ts" hspkne]
  have hnotext : ¬(u = [] ∧ pyStripL ([] : List Char) ≠ [] ∧ "before_ts" = "none") :=
    fun h => h.2.1 rfl
  rw [if_neg hnotext, swap_min_max]

lemma mkTs_getLast (a w1 : List Char) (sep : Char) (w2 b : List Char) :
    (mkTs a w1 sep w2 b).getLast? = some ']' := by
  unfold mkTs
  rw [show ('[' :: (a ++ w1 ++ sep :: (w2 ++ b ++ [']'])) : List Char)
      = ('[' :: (a ++ w1 ++ sep :: (w2 ++ b))) ++ [']'] by simp]
  rw [getLast?_append_right _ _ (by simp)]
  rfl

lemma bracket_line_last (a w1 : List Char) (sep : Char) (w2 b post : List Char)
    (hpostr : pyRStripL post = post) :
    ∀ c, (mkTs a w1 sep w2 b ++ post).getLast? = some c → isWs c = false := by
  intro c hc
  cases hp : post with
  | nil =>
    rw [hp, List.append_nil, mkTs_getLast] at hc
    simp only [Option.some.injEq] at hc
    exact hc ▸ (by decide)
  | cons p ps =>
    rw [getLast?_append_right _ _ (by simp [hp])] at hc
    exact rstrip_id_last post hpostr c hc

/-- C6 (amended): inside a bracketed pair separated by `-` or `–`, each
timestamp may be a plain decimal-seconds number or an `H:MM:SS(.fraction)`
form with 1-2 hour digits, exactly 2 minute and second digits and a 1-3
digit fraction, using `.` or `,` as the fraction separator; every line
carrying such a bracket at its start parses to a non-null segment whose
start and end are the two timestamp values (swapped into order), and these
two grammars are the only timestamp strings `_parse_time_to_seconds`
accepts. (The claim's additional `MM:SS` form is not accepted — see the
counterexample.) -/
theorem timestamp_forms_accepted
    (a w1 w2 b post : List Char) (sep : Char) (va vb : ℚ)
    (hac : ∀ c ∈ a, tsClass c = true) (hbc : ∀ c ∈ b, tsClass c = true)
    (hw1 : ∀ c ∈ w1, isWs c = true) (hw2 : ∀ c ∈ w2, isWs c = true)
    (hsep : sep = '-' ∨ sep = '–')
    (hva : _parse_time_to_seconds (String.mk a) = some va)
    (hvb : _parse_time_to_seconds (String.mk b) = some vb)
    (hpostr : pyRStripL post = post) :
    (parse_segment_line (String.mk (mkTs a w1 sep w2 b ++ post)) 0).map
        (fun s => (s.start_s, s.end_s))
      = some (min va vb, max va vb) ∧
    ∀ s : String, (_parse_time_to_seconds s).isSome = true →
      (decimalVal ((pyStripL s.toList).map commaDot)).isSome = true ∨
      (hmsVal ((pyStripL s.toList).map commaDot)).isSome = true := by
  have hane : a ≠ [] := by
    intro h
    rw [h, show _parse_time_to_seconds (String.mk []) = none from rfl] at hva
    exact absurd hva (by simp)
  have hbne : b ≠ [] := by
    intro h
    rw [h, show _parse_time_to_seconds (String.mk []) = none from rfl] at hvb
    exact absurd hvb (by simp)
  constructor
  · have hmain := parseSegCore_bracket_first a w1 w2 b post (pyStripL post) sep va vb 0
      hane hac hbne hbc hw1 hw2 hsep hva hvb
      (bracket_line_last a w1 sep w2 b post hpostr) rfl
    show (parseSegCore (mkTs a w1 sep w2 b ++ post) 0).map (fun s => (s.start_s, s.end_s))
        = some (min va vb, max va vb)
    rw [hmain]
    rfl
  · intro s hs
    unfold _parse_time_to_seconds at hs
    simp only [] at hs
    by_cases hnil : (pyStripL s.toList).map commaDot = []
    · rw [if_pos hnil] at hs
      exact absurd hs (by simp)
    · rw [if_neg hnil] at hs
      cases hd : decimalVal ((pyStripL s.toList).map commaDot) with
      | some v =>
        left
        rfl
      | none =>
        right
        rw [hd] at hs
        simpa using hs

/-- C6, counterexample to the claim as stated: an `MM:SS` timestamp is not
accepted — the line `"[01:23-01:25] hi"` parses to null although both
timestamps are in `MM:SS` form. -/
theorem timestamp_mm_ss_rejected :
    parse_segment_line "[01:23-01:25] hi" 0 = none ∧
    _parse_time_to_seconds "01:23" = none := by
  constructor <;> rfl

/-- Witness for C6's amended theorem: a decimal-seconds start, an
`H:MM:SS,fff` end with a comma fraction separator, and a text tail. -/
theorem timestamp_forms_accepted_witness :
    (parse_segment_line
        (String.mk (mkTs ['1'] [' '] '-' [' ']
          ['0', '0', ':', '0', '0', ':', '0', '2', ',', '5']
          ++ [' ', 'h', 'i'])) 0).map (fun s => (s.start_s, s.end_s))
      = some (min (mkRat 1 1) (mkRat 2500 1000), max (mkRat 1 1) (mkRat 2500 1000)) ∧
    String.mk (mkTs ['1'] [' '] '-' [' ']
        ['0', '0', ':', '0', '0', ':', '0', '2', ',', '5'] ++ [' ', 'h', 'i'])
      = "[1 - 00:00:02,5] hi" ∧
    min (mkRat 1 1) (mkRat 2500 1000) = 1 ∧ max (mkRat 1 1) (mkRat 2500 1000) = 5/2 := by
  refine ⟨?_, by rfl, by norm_num, by norm_num⟩
  have h := timestamp_forms_accepted ['1'] [' '] [' ']
    ['0', '0', ':', '0', '0', ':', '0', '2', ',', '5'] [' ', 'h', 'i'] '-'
    (mkRat 1 1) (mkRat 2500 1000)
    (by decide) (by decide) (by decide) (by decide) (Or.inl rfl)
    (by rfl) (by rfl) (by decide)
  exact h.1

/-! ### Formatter-side helper lemmas -/

lemma pyRStrip_mk (X : List Char) : pyRStrip (String.mk X) = String.mk (pyRStripL X) := rfl

lemma normalize_mk_id (t : List Char)
    (h1 : mapWsRuns nlRunFix t = t) (h2 : mapWsRuns wsRunFix t = t)
    (h3 : pyStripL t = t) :
    normalizeEditedText (String.mk t) = String.mk t := by
  unfold normalizeEditedText
  rw [show (String.mk t).toList = t from rfl, h1, h2, h3]

lemma pyStrip_mk_id (spk : List Char) (h : pyStripL spk = spk) :
    pyStrip (String.mk spk) = String.mk spk := by
  unfold pyStrip
  rw [show (String.mk spk).toList = spk from rfl, h]

lemma mk_ne_empty (l : List Char) (h : l ≠ []) : String.mk l ≠ "" :=
  fun he => h (congrArg String.data he)

/-- C5 (amended): the codec round-trips for recognized lines in canonical
form — a well-formed bracket, a whitespace-normalised non-empty text that
does not itself start with a speaker label when no speaker is present, and a
whitespace-normalised 1-64 character label (if any). For the three shapes
(no speaker / speaker after the bracket / speaker before the bracket),
`parse` yields exactly the expected segment and `format` (the edit dialog's
`build_new_line` on the unchanged fields) reproduces the original line
byte-for-byte, so `parse(format(x)) = x` on `(start, end, speaker, text)`
and the speaker position is preserved. Lines with unnormalised internal
whitespace are only reproduced up to the formatter's whitespace collapsing
(see the counterexample). -/
theorem segment_codec_round_trip
    (a w1 w2 b spk t : List Char) (sep : Char) (va vb : ℚ)
    (hac : ∀ c ∈ a, tsClass c = true) (hbc : ∀ c ∈ b, tsClass c = true)
    (hw1 : ∀ c ∈ w1, isWs c = true) (hw2 : ∀ c ∈ w2, isWs c = true)
    (hsep : sep = '-' ∨ sep = '–')
    (hva : _parse_time_to_seconds (String.mk a) = some va)
    (hvb : _parse_time_to_seconds (String.mk b) = some vb)
    (hspkne : spk ≠ []) (hspklen : spk.length ≤ 64)
    (hspkgood : ∀ c ∈ spk, goodSpk c = true) (hspkstrip : pyStripL spk = spk)
    (htne : t ≠ []) (htstrip : pyStripL t = t)
    (htnl : mapWsRuns nlRunFix t = t) (htws : mapWsRuns wsRunFix t = t)
    (hlabel : spkSplitCore t = none) :
    (parse_segment_line (String.mk (mkTs a w1 sep w2 b ++ ' ' :: t)) 0
        = some ⟨0, String.mk (mkTs a w1 sep w2 b), min va vb, max va vb, "",
            String.mk t, "none"⟩ ∧
      build_new_line
          ⟨0, String.mk (mkTs a w1 sep w2 b), min va vb, max va vb, "",
            String.mk t, "none"⟩ "" (String.mk t)
        = String.mk (mkTs a w1 sep w2 b ++ ' ' :: t)) ∧
    (parse_segment_line
        (String.mk (mkTs a w1 sep w2 b ++ ' ' :: (spk ++ ':' :: ' ' :: t))) 0
        = some ⟨0, String.mk (mkTs a w1 sep w2 b), min va vb, max va vb,
            String.mk spk, String.mk t, "after_ts"⟩ ∧
      build_new_line
          ⟨0, String.mk (mkTs a w1 sep w2 b), min va vb, max va vb,
            String.mk spk, String.mk t, "after_ts"⟩ (String.mk spk) (String.mk t)
        = String.mk (mkTs a w1 sep w2 b ++ ' ' :: (spk ++ ':' :: ' ' :: t))) ∧
    (parse_segment_line
        (String.mk (spk ++ ':' :: ' ' :: (mkTs a w1 sep w2 b ++ ' ' :: t))) 0
        = some ⟨0, String.mk (mkTs a w1 sep w2 b), min va vb, max va vb,
            String.mk spk, String.mk t, "before_ts"⟩ ∧
      build_new_line
          ⟨0, String.mk (mkTs a w1 sep w2 b), min va vb, max va vb,
            String.mk spk, String.mk t, "before_ts"⟩ (String.mk spk) (String.mk t)
        = String.mk (spk ++ ':' :: ' ' :: (mkTs a w1 sep w2 b ++ ' ' :: t))) := by
  have hane : a ≠ [] := by
    intro h
    rw [h, show _parse_time_to_seconds (String.mk []) = none from rfl] at hva
    exact absurd hva (by simp)
  have hbne : b ≠ [] := by
    intro h
    rw [h, show _parse_time_to_seconds (String.mk []) = none from rfl] at hvb
    exact absurd hvb (by simp)
  have htlast := strip_id_last t htstrip
  have hdropT : t.dropWhile isWs = t := (strip_id_parts t htstrip).1
  have hlast_sp_t : ∀ c, ((' ' :: t) : List Char).getLast? = some c → isWs c = false := by
    intro c hc
    rw [show ((' ' :: t) : List Char) = [' '] ++ t from rfl,
      getLast?_append_right _ _ htne] at hc
    exact htlast c hc
  have hpostStrip : pyStripL (' ' :: t) = t := by
    rw [pyStripL_cons_ws _ _ (by decide)]
    exact htstrip
  have hlastN : ∀ c, (mkTs a w1 sep w2 b ++ ' ' :: t).getLast? = some c → isWs c = false := by
    intro c hc
    rw [getLast?_append_right _ _ (by simp)] at hc
    exact hlast_sp_t c hc
  -- after-form tail u = spk ++ ": " ++ t
  have hune : spk ++ ':' :: ' ' :: t ≠ [] := by simp
  have huStrip : pyStripL (spk ++ ':' :: ' ' :: t) = spk ++ ':' :: ' ' :: t := by
    refine pyStripL_id _ ?_ ?_
    · intro c hc
      cases hs : spk with
      | nil => exact absurd hs hspkne
      | cons x xs =>
        rw [hs] at hc
        simp only [List.cons_append, List.head?_cons, Option.some.injEq] at hc
        exact hc ▸ strip_id_head spk hspkstrip x (by rw [hs]; rfl)
    · intro c hc
      rw [show (spk ++ ':' :: ' ' :: t : List Char) = spk ++ ([':', ' '] ++ t) from rfl,
        getLast?_append_right _ _ (by simp), getLast?_append_right _ _ htne] at hc
      exact htlast c hc
  have hdropU : (spk ++ ':' :: ' ' :: t).dropWhile isWs = spk ++ ':' :: ' ' :: t :=
    (strip_id_parts _ huStrip).1
  have hdropSpT : ((' ' :: t) : List Char).dropWhile isWs = t := by
    rw [List.dropWhile_cons, if_pos (by decide)]
    exact hdropT
  have hsplitU : spkSplitCore (spk ++ ':' :: ' ' :: t) = some (spk, t) := by
    rw [show (spk ++ ':' :: ' ' :: t : List Char) = spk ++ ':' :: (' ' :: t) from rfl,
      spkSplitCore_label spk (' ' :: t) hspkne hspklen hspkgood, hdropSpT]
  have hpostStripA : pyStripL (' ' :: (spk ++ ':' :: ' ' :: t)) = spk ++ ':' :: ' ' :: t := by
    rw [pyStripL_cons_ws _ _ (by decide)]
    exact huStrip
  have hlastA : ∀ c, (mkTs a w1 sep w2 b ++ ' ' :: (spk ++ ':' :: ' ' :: t)).getLast? = some c →
      isWs c = false := by
    intro c hc
    rw [getLast?_append_right _ _ (by simp),
      show (' ' :: (spk ++ ':' :: ' ' :: t) : List Char)
        = [' '] ++ (spk ++ ':' :: ' ' :: t) from rfl,
      getLast?_append_right _ _ hune,
      show (spk ++ ':' :: ' ' :: t : List Char) = spk ++ ([':', ' '] ++ t) from rfl,
      getLast?_append_right _ _ (by simp), getLast?_append_right _ _ htne] at hc
    exact htlast c hc
  have hpA_none : parseAfterSpeaker [] "none" t = ([], "none", t) :=
    parseAfterSpeaker_nolabel t "none" (by rw [hdropT]; exact hlabel)
  have hpA_after : parseAfterSpeaker [] "none" (spk ++ ':' :: ' ' :: t)
      = (spk, "after_ts", t) := by
    rw [parseAfterSpeaker_label (spk ++ ':' :: ' ' :: t) spk t "none" hune
      (by rw [hdropU]; exact hsplitU)]
    rw [hspkstrip, htstrip]
  have hlastLineB : ∀ c,
      (spk ++ ':' :: ' ' :: (mkTs a w1 sep w2 b ++ ' ' :: t)).getLast? = some c →
      isWs c = false := by
    intro c hc
    rw [show (spk ++ ':' :: ' ' :: (mkTs a w1 sep w2 b ++ ' ' :: t) : List Char)
        = spk ++ ([':', ' '] ++ (mkTs a w1 sep w2 b ++ ' ' :: t)) from rfl,
      getLast?_append_right _ _ (by simp),
      getLast?_append_right _ _ (mkTs_append_ne_nil a w1 sep w2 b (' ' :: t))] at hc
    exact hlastN c hc
  refine ⟨⟨?_, ?_⟩, ⟨?_, ?_⟩, ⟨?_, ?_⟩⟩
  · show parseSegCore (mkTs a w1 sep w2 b ++ ' ' :: t) 0 = _
    rw [parseSegCore_bracket_first a w1 w2 b (' ' :: t) t sep va vb 0
      hane hac hbne hbc hw1 hw2 hsep hva hvb hlastN hpostStrip, hpA_none]
  · show build_new_line _ "" (String.mk t) = _
    unfold build_new_line
    simp only []
    rw [if_neg (by decide : ¬("none" : String) = "before_ts"),
      if_neg (by decide : ¬("none" : String) = "after_ts"),
      if_neg (by decide : ¬(pyStrip "" ≠ "")),
      normalize_mk_id t htnl htws htstrip,
      show String.mk (mkTs a w1 sep w2 b) ++ " " ++ String.mk t
        = String.mk ((mkTs a w1 sep w2 b ++ [' ']) ++ t) from rfl,
      pyRStrip_mk, List.append_assoc, List.singleton_append,
      pyRStripL_id _ hlastN]
  · show parseSegCore (mkTs a w1 sep w2 b ++ ' ' :: (spk ++ ':' :: ' ' :: t)) 0 = _
    rw [parseSegCore_bracket_first a w1 w2 b (' ' :: (spk ++ ':' :: ' ' :: t))
      (spk ++ ':' :: ' ' :: t) sep va vb 0
      hane hac hbne hbc hw1 hw2 hsep hva hvb hlastA hpostStripA, hpA_after]
  · show build_new_line _ (String.mk spk) (String.mk t) = _
    unfold build_new_line
    simp only []
    rw [if_neg (by decide : ¬("after_ts" : String) = "before_ts"),
      if_pos True.intro,
      pyStrip_mk_id spk hspkstrip,
      if_pos (mk_ne_empty spk hspkne),
      normalize_mk_id t htnl htws htstrip,
      show String.mk (mkTs a w1 sep w2 b) ++ " " ++ String.mk spk ++ ": " ++ String.mk t
        = String.mk ((((mkTs a w1 sep w2 b ++ [' ']) ++ spk) ++ [':', ' ']) ++ t) from rfl,
      pyRStrip_mk]
    simp only [List.append_assoc, List.cons_append, List.singleton_append, List.nil_append]
    rw [pyRStripL_id _ hlastA]
  · show parseSegCore (spk ++ ':' :: ' ' :: (mkTs a w1 sep w2 b ++ ' ' :: t)) 0 = _
    rw [parseSegCore_before_form spk a w1 w2 b (' ' :: t) t sep va vb 0
      hane hac hbne hbc hw1 hw2 hsep hva hvb hspkne hspklen hspkgood hspkstrip
      (by simp) hlast_sp_t hpostStrip]
  · show build_new_line _ (String.mk spk) (String.mk t) = _
    unfold build_new_line
    simp only []
    rw [if_pos True.intro,
      pyStrip_mk_id spk hspkstrip,
      if_pos (mk_ne_empty spk hspkne),
      normalize_mk_id t htnl htws htstrip,
      show String.mk spk ++ ": " ++ String.mk (mkTs a w1 sep w2 b) ++ " " ++ String.mk t
        = String.mk ((((spk ++ [':', ' ']) ++ mkTs a w1 sep w2 b) ++ [' ']) ++ t) from rfl,
      pyRStrip_mk]
    simp only [List.append_assoc, List.cons_append, List.singleton_append, List.nil_append]
    rw [pyRStripL_id _ hlastLineB]

/-- C5, counterexample to the claim as stated: the recognized line
`"[1-2] a  b"` (double space inside the text) does not round-trip on the
modelled fields — the formatter collapses the whitespace run, so re-parsing
`format(parse(line))` yields text `"a b"` ≠ `"a  b"`. -/
theorem segment_codec_round_trip_counterexample :
    (parse_segment_line "[1-2] a  b" 0).map
        (fun s => (s.speaker, s.text, s.speaker_position))
      = some ("", "a  b", "none") ∧
    (parse_segment_line "[1-2] a  b" 0).map
        (fun x => build_new_line x x.speaker x.text)
      = some "[1-2] a b" ∧
    ((parse_segment_line "[1-2] a  b" 0).bind
        (fun x => parse_segment_line (build_new_line x x.speaker x.text) 0)).map
        (fun s => s.text)
      = some "a b" ∧
    ("a b" : String) ≠ "a  b" := by
  refine ⟨rfl, rfl, rfl, by decide⟩

/-- Witness for C5's amended theorem at the spec's own example line
`"[00:00:01.000 - 00:00:02.500] SPK1: hello"`. -/
theorem segment_codec_round_trip_witness :
    parse_segment_line "[00:00:01.000 - 00:00:02.500] SPK1: hello" 0
      = some ⟨0, "[00:00:01.000 - 00:00:02.500]",
          min (mkRat 1000 1000) (mkRat 2500 1000),
          max (mkRat 1000 1000) (mkRat 2500 1000), "SPK1", "hello", "after_ts"⟩ ∧
    build_new_line
        ⟨0, "[00:00:01.000 - 00:00:02.500]",
          min (mkRat 1000 1000) (mkRat 2500 1000),
          max (mkRat 1000 1000) (mkRat 2500 1000), "SPK1", "hello", "after_ts"⟩
        "SPK1" "hello"
      = "[00:00:01.000 - 00:00:02.500] SPK1: hello" := by
  have h := segment_codec_round_trip
    ['0', '0', ':', '0', '0', ':', '0', '1', '.', '0', '0', '0'] [' '] [' ']
    ['0', '0', ':', '0', '0', ':', '0', '2', '.', '5', '0', '0']
    ['S', 'P', 'K', '1'] ['h', 'e', 'l', 'l', 'o'] '-'
    (mkRat 1000 1000) (mkRat 2500 1000)
    (by decide) (by decide) (by decide) (by decide) (Or.inl rfl)
    (by rfl) (by rfl)
    (by decide) (by decide) (by decide) (by decide)
    (by decide) (by decide) (by rfl) (by rfl) (by rfl)
  exact ⟨h.2.1.1, h.2.1.2⟩

/-! ### Speaker-label bounds (C10) -/

lemma goodSpk_chars (c : Char) (h : goodSpk c = true) :
    c ≠ ':' ∧ c ≠ '[' ∧ c ≠ ']' := by
  refine ⟨fun he => ?_, fun he => ?_, fun he => ?_⟩ <;>
    (subst he; exact absurd h (by decide))

lemma parsePrefixStep_spk_inv (rest0 : List Char) :
    (parsePrefixStep rest0).1.length ≤ 64 ∧
      ∀ c ∈ (parsePrefixStep rest0).1, goodSpk c = true := by
  cases hs : spkSplitCore rest0 with
  | none =>
    rw [parsePrefixStep_none rest0 hs]
    exact ⟨Nat.zero_le 64, fun c hc => absurd hc (List.not_mem_nil c)⟩
  | some p =>
    obtain ⟨spk, r⟩ := p
    have hinv := spkSplitCore_inv rest0 spk r hs
    cases hb : (tsBracketSearch r).isSome with
    | true =>
      rw [parsePrefixStep_label spk r rest0 hs hb]
      exact ⟨le_trans (pyStripL_length_le spk) hinv.1,
        fun c hc => hinv.2 c (pyStripL_subset spk hc)⟩
    | false =>
      have hstep : parsePrefixStep rest0 = ([], "none", rest0) := by
        unfold parsePrefixStep
        rw [hs]
        show (if (tsBracketSearch r).isSome = true
            then (pyStripL spk, ("before_ts" : String), pyStripL r)
            else (([] : List Char), ("none" : String), rest0))
          = (([] : List Char), ("none" : String), rest0)
        rw [if_neg (fun hh => Bool.false_ne_true (hb ▸ hh))]
      rw [hstep]
      exact ⟨Nat.zero_le 64, fun c hc => absurd hc (List.not_mem_nil c)⟩

lemma parseAfterSpeaker_spk_inv (speaker0 : List Char) (pos0 : String)
    (after0 : List Char)
    (h0 : speaker0.length ≤ 64 ∧ ∀ c ∈ speaker0, goodSpk c = true) :
    (parseAfterSpeaker speaker0 pos0 after0).1.length ≤ 64 ∧
      ∀ c ∈ (parseAfterSpeaker speaker0 pos0 after0).1, goodSpk c = true := by
  unfold parseAfterSpeaker
  by_cases hcond : speaker0 = [] ∧ after0 ≠ []
  · rw [if_pos hcond]
    cases hs : spkSplitCore (after0.dropWhile isWs) with
    | none => exact h0
    | some p =>
      obtain ⟨spk, txt⟩ := p
      have hinv := spkSplitCore_inv _ spk txt hs
      exact ⟨le_trans (pyStripL_length_le spk) hinv.1,
        fun c hc => hinv.2 c (pyStripL_subset spk hc)⟩
  · rw [if_neg hcond]
    exact h0

/-- Every successfully parsed segment carries a speaker of at most 64
characters, all drawn from the label character class. -/
lemma parseSegCore_speaker_inv (raw0 : List Char) (bn : Nat) (seg : Segment)
    (h : parseSegCore raw0 bn = some seg) :
    seg.speaker.data.length ≤ 64 ∧
      ∀ c ∈ seg.speaker.data, goodSpk c = true := by
  unfold parseSegCore at h
  simp only [] at h
  by_cases h0 : pyStripL (rstripNlL raw0) = []
  · rw [if_pos h0] at h
    exact Option.noConfusion h
  · rw [if_neg h0] at h
    cases hsearch : tsBracketSearch (parsePrefixStep (pyStripL (rstripNlL raw0))).2.2 with
    | none =>
      rw [hsearch] at h
      exact Option.noConfusion h
    | some q =>
      obtain ⟨pre, a2, b2, mt, post⟩ := q
      simp only [hsearch] at h
      cases hva2 : _parse_time_to_seconds (String.mk a2) with
      | none =>
        cases hvb2 : _parse_time_to_seconds (String.mk b2) with
        | none =>
          rw [hva2, hvb2] at h
          exact Option.noConfusion h
        | some vb2 =>
          rw [hva2, hvb2] at h
          exact Option.noConfusion h
      | some va2 =>
        cases hvb2 : _parse_time_to_seconds (String.mk b2) with
        | none =>
          rw [hva2, hvb2] at h
          exact Option.noConfusion h
        | some vb2 =>
          rw [hva2, hvb2] at h
          have hseg := Option.some.inj h
          subst hseg
          exact parseAfterSpeaker_spk_inv _ _ _ (parsePrefixStep_spk_inv _)

/-- Parse of a line with an over-64-character would-be label before the
bracket whose tail carries no label of its own: the prefix pattern cannot
match, the bracket is still found, and the long label lands in the dropped
`before` part — the parsed segment has an empty speaker and the label is
not folded into the text. -/
lemma parseSegCore_before_long
    (lspk a w1 w2 b t : List Char) (sep : Char) (va vb : ℚ) (bn : Nat)
    (hane : a ≠ []) (hac : ∀ c ∈ a, tsClass c = true)
    (hbne : b ≠ []) (hbc : ∀ c ∈ b, tsClass c = true)
    (hw1 : ∀ c ∈ w1, isWs c = true) (hw2 : ∀ c ∈ w2, isWs c = true)
    (hsep : sep = '-' ∨ sep = '–')
    (hva : _parse_time_to_seconds (String.mk a) = some va)
    (hvb : _parse_time_to_seconds (String.mk b) = some vb)
    (hlsplen : 64 < lspk.length)
    (hlspgood : ∀ c ∈ lspk, goodSpk c = true)
    (hlspstrip : pyStripL lspk = lspk)
    (htne : t ≠ []) (htstrip : pyStripL t = t)
    (hlabelt : spkSplitCore t = none) :
    parseSegCore (lspk ++ ':' :: ' ' :: (mkTs a w1 sep w2 b ++ ' ' :: t)) bn
      = some ⟨bn, String.mk (mkTs a w1 sep w2 b), min va vb, max va vb, "",
          String.mk t, "none"⟩ := by
  have hlspne : lspk ≠ [] := by
    intro h
    rw [h] at hlsplen
    exact absurd hlsplen (by decide)
  have htlast := strip_id_last t htstrip
  have hdropT : t.dropWhile isWs = t := (strip_id_parts t htstrip).1
  have hZne : mkTs a w1 sep w2 b ++ ' ' :: t ≠ [] := mkTs_append_ne_nil a w1 sep w2 b _
  have hlast_sp_t : ∀ c, ((' ' :: t) : List Char).getLast? = some c → isWs c = false := by
    intro c hc
    rw [show ((' ' :: t) : List Char) = [' '] ++ t from rfl,
      getLast?_append_right _ _ htne] at hc
    exact htlast c hc
  have hlastZ : ∀ c, (mkTs a w1 sep w2 b ++ ' ' :: t).getLast? = some c → isWs c = false := by
    intro c hc
    rw [getLast?_append_right _ _ (by simp)] at hc
    exact hlast_sp_t c hc
  have hlastLine : ∀ c,
      (lspk ++ ':' :: ' ' :: (mkTs a w1 sep w2 b ++ ' ' :: t)).getLast? = some c →
      isWs c = false := by
    intro c hc
    rw [show (':' :: ' ' :: (mkTs a w1 sep w2 b ++ ' ' :: t) : List Char)
        = [':', ' '] ++ (mkTs a w1 sep w2 b ++ ' ' :: t) from rfl,
      getLast?_append_right lspk _ (by simp),
      getLast?_append_right _ _ hZne] at hc
    exact hlastZ c hc
  have hheadLine : ∀ c,
      (lspk ++ ':' :: ' ' :: (mkTs a w1 sep w2 b ++ ' ' :: t)).head? = some c →
      isWs c = false := by
    intro c hc
    cases hs : lspk with
    | nil => exact absurd hs hlspne
    | cons s0 srest =>
      rw [hs] at hc
      simp only [List.cons_append, List.head?_cons, Option.some.injEq] at hc
      exact hc ▸ strip_id_head lspk hlspstrip s0 (by rw [hs]; rfl)
  have hlineStrip : pyStripL (lspk ++ ':' :: ' ' :: (mkTs a w1 sep w2 b ++ ' ' :: t))
      = lspk ++ ':' :: ' ' :: (mkTs a w1 sep w2 b ++ ' ' :: t) :=
    pyStripL_id _ hheadLine hlastLine
  have hlineNl : rstripNlL (lspk ++ ':' :: ' ' :: (mkTs a w1 sep w2 b ++ ' ' :: t))
      = lspk ++ ':' :: ' ' :: (mkTs a w1 sep w2 b ++ ' ' :: t) :=
    rstripNlL_id _ (fun c hc => not_nl_of_not_ws c (hlastLine c hc))
  have hsplitLine : spkSplitCore (lspk ++ ':' :: ' ' :: (mkTs a w1 sep w2 b ++ ' ' :: t))
      = none :=
    spkSplitCore_long lspk _ hlsplen hlspgood
      (fun c hc => by
        simp only [List.head?_cons, Option.some.injEq] at hc
        exact hc ▸ (by decide))
  have hprefix := parsePrefixStep_none _ hsplitLine
  have hsearchZ := tsBracketSearch_schema a w1 w2 b (' ' :: t) sep hane hac hbne hbc hw1 hw2 hsep
  have hsearchLine : tsBracketSearch (lspk ++ ':' :: ' ' :: (mkTs a w1 sep w2 b ++ ' ' :: t))
      = some (lspk ++ [':', ' '], a, b, mkTs a w1 sep w2 b, ' ' :: t) := by
    have hP : ∀ c ∈ lspk ++ [':', ' '], ¬ c = '[' := by
      intro c hc
      rcases List.mem_append.mp hc with h1 | h1
      · exact (goodSpk_chars c (hlspgood c h1)).2.1
      · have h2 : c = ':' ∨ c = ' ' := by simpa using h1
        rcases h2 with rfl | rfl <;> decide
    have h := tsBracketSearch_prepend (lspk ++ [':', ' ']) _ hP [] a b
      (mkTs a w1 sep w2 b) (' ' :: t) hsearchZ
    rw [List.append_nil] at h
    rw [show lspk ++ ':' :: ' ' :: (mkTs a w1 sep w2 b ++ ' ' :: t)
        = (lspk ++ [':', ' ']) ++ (mkTs a w1 sep w2 b ++ ' ' :: t) by simp]
    exact h
  have hpostStrip : pyStripL (' ' :: t) = t := by
    rw [pyStripL_cons_ws _ _ (by decide)]
    exact htstrip
  have hafterT : parseAfterSpeaker [] "none" t = ([], "none", t) :=
    parseAfterSpeaker_nolabel t "none" (by rw [hdropT]; exact hlabelt)
  unfold parseSegCore
  simp only [hlineNl, hlineStrip, hprefix, hsearchLine, hva, hvb, hpostStrip, hafterT]
  rw [if_neg (by simp : ¬(lspk ++ ':' :: ' ' :: (mkTs a w1 sep w2 b ++ ' ' :: t) = []))]
  have hnotext : ¬(t = [] ∧ pyStripL (lspk ++ [':', ' ']) ≠ [] ∧ True) :=
    fun h => htne h.1
  rw [if_neg hnotext, swap_min_max]

/-- C10 (amended, corrected): every speaker label the parser extracts is at
most 64 characters long and contains no `:`, `[` or `]`; a would-be label of
more than 64 characters written after the bracket is not extracted — the
whole `label: text` tail is folded into the text field with an empty speaker
and position `none`. However, for a longer-than-64 would-be label written
before the bracket the claim's "folded into the text" is wrong: the bracket
is still found, the long label lands in the pre-bracket part, which is
dropped whenever there is text after the bracket, so the parsed segment has
an empty speaker and the label is absent from the text (and, per the
counterexample, a second short label after the bracket can still be
extracted as the speaker). -/
theorem speaker_label_bounds
    (line : String) (bn : Nat) (seg : Segment)
    (lspk t a w1 w2 b : List Char) (sep : Char) (va vb : ℚ)
    (hparse : parse_segment_line line bn = some seg)
    (hac : ∀ c ∈ a, tsClass c = true) (hbc : ∀ c ∈ b, tsClass c = true)
    (hw1 : ∀ c ∈ w1, isWs c = true) (hw2 : ∀ c ∈ w2, isWs c = true)
    (hsep : sep = '-' ∨ sep = '–')
    (hva : _parse_time_to_seconds (String.mk a) = some va)
    (hvb : _parse_time_to_seconds (String.mk b) = some vb)
    (hlsplen : 64 < lspk.length)
    (hlspgood : ∀ c ∈ lspk, goodSpk c = true)
    (hlspstrip : pyStripL lspk = lspk)
    (htne : t ≠ []) (htstrip : pyStripL t = t)
    (hlabelt : spkSplitCore t = none) :
    (seg.speaker.data.length ≤ 64 ∧
      ∀ c ∈ seg.speaker.data, c ≠ ':' ∧ c ≠ '[' ∧ c ≠ ']') ∧
    parse_segment_line
        (String.mk (mkTs a w1 sep w2 b ++ ' ' :: (lspk ++ ':' :: ' ' :: t))) bn
      = some ⟨bn, String.mk (mkTs a w1 sep w2 b), min va vb, max va vb, "",
          String.mk (lspk ++ ':' :: ' ' :: t), "none"⟩ ∧
    parse_segment_line
        (String.mk (lspk ++ ':' :: ' ' :: (mkTs a w1 sep w2 b ++ ' ' :: t))) bn
      = some ⟨bn, String.mk (mkTs a w1 sep w2 b), min va vb, max va vb, "",
          String.mk t, "none"⟩ := by
  have hane : a ≠ [] := by
    intro h
    rw [h, show _parse_time_to_seconds (String.mk []) = none from rfl] at hva
    exact absurd hva (by simp)
  have hbne : b ≠ [] := by
    intro h
    rw [h, show _parse_time_to_seconds (String.mk []) = none from rfl] at hvb
    exact absurd hvb (by simp)
  have hinv := parseSegCore_speaker_inv line.toList bn seg hparse
  have hlspne : lspk ≠ [] := by
    intro h
    rw [h] at hlsplen
    exact absurd hlsplen (by decide)
  have htlast := strip_id_last t htstrip
  have hXlast : ∀ c, (lspk ++ ':' :: ' ' :: t).getLast? = some c → isWs c = false := by
    intro c hc
    rw [show (':' :: ' ' :: t : List Char) = [':', ' '] ++ t from rfl,
      getLast?_append_right lspk _ (by simp),
      getLast?_append_right _ _ htne] at hc
    exact htlast c hc
  have hXhead : ∀ c, (lspk ++ ':' :: ' ' :: t).head? = some c → isWs c = false := by
    intro c hc
    cases hs : lspk with
    | nil => exact absurd hs hlspne
    | cons s0 srest =>
      rw [hs] at hc
      simp only [List.cons_append, List.head?_cons, Option.some.injEq] at hc
      exact hc ▸ strip_id_head lspk hlspstrip s0 (by rw [hs]; rfl)
  have hXstrip : pyStripL (lspk ++ ':' :: ' ' :: t) = lspk ++ ':' :: ' ' :: t :=
    pyStripL_id _ hXhead hXlast
  have hsplitX : spkSplitCore (lspk ++ ':' :: ' ' :: t) = none :=
    spkSplitCore_long lspk _ hlsplen hlspgood
      (fun c hc => by
        simp only [List.head?_cons, Option.some.injEq] at hc
        exact hc ▸ (by decide))
  have hafterX : parseAfterSpeaker [] "none" (lspk ++ ':' :: ' ' :: t)
      = ([], "none", lspk ++ ':' :: ' ' :: t) :=
    parseAfterSpeaker_nolabel _ "none" (by
      rw [(strip_id_parts _ hXstrip).1]
      exact hsplitX)
  have hlastLineB : ∀ c,
      (mkTs a w1 sep w2 b ++ ' ' :: (lspk ++ ':' :: ' ' :: t)).getLast? = some c →
      isWs c = false := by
    intro c hc
    rw [getLast?_append_right _ _ (by simp),
      show (' ' :: (lspk ++ ':' :: ' ' :: t) : List Char)
        = [' '] ++ (lspk ++ ':' :: ' ' :: t) from rfl,
      getLast?_append_right _ _ (by simp)] at hc
    exact hXlast c hc
  have hpostB : pyStripL (' ' :: (lspk ++ ':' :: ' ' :: t)) = lspk ++ ':' :: ' ' :: t := by
    rw [pyStripL_cons_ws _ _ (by decide)]
    exact hXstrip
  have hb2 := parseSegCore_bracket_first a w1 w2 b (' ' :: (lspk ++ ':' :: ' ' :: t))
    (lspk ++ ':' :: ' ' :: t) sep va vb bn hane hac hbne hbc hw1 hw2 hsep hva hvb
    hlastLineB hpostB
  rw [hafterX] at hb2
  exact ⟨⟨hinv.1, fun c hc => goodSpk_chars c (hinv.2 c hc)⟩, hb2,
    parseSegCore_before_long lspk a w1 w2 b t sep va vb bn hane hac hbne hbc
      hw1 hw2 hsep hva hvb hlsplen hlspgood hlspstrip htne htstrip hlabelt⟩

/-- C10, counterexample to the claim as stated: a 65-character would-be
label before the bracket followed by a second, short label after the
bracket. The parser does not return an empty speaker with the long label
folded into the text; instead it extracts the short after-bracket label
`"B"` as the speaker and drops the long label entirely. -/
theorem speaker_label_over64_not_folded :
    (parse_segment_line (String.mk (List.replicate 65 'A') ++ ": [1-2] B: x") 0).map
        (fun s => (s.speaker, s.speaker_position, s.text))
      = some ("B", "after_ts", "x") ∧
    64 < (List.replicate 65 'A').length := by
  exact ⟨rfl, by decide⟩

/-- Witness for C10's amended theorem: the parsed line `"[1-2] hi"` has an
in-bounds speaker, and both long-label shapes at a concrete 65-`'A'` label. -/
theorem speaker_label_bounds_witness :
    (("" : String).data.length ≤ 64 ∧
      ∀ c ∈ ("" : String).data, c ≠ ':' ∧ c ≠ '[' ∧ c ≠ ']') ∧
    parse_segment_line
        (String.mk (mkTs ['1'] [] '-' [] ['2'] ++ ' ' ::
          (List.replicate 65 'A' ++ ':' :: ' ' :: ['x']))) 0
      = some ⟨0, String.mk (mkTs ['1'] [] '-' [] ['2']),
          min (mkRat 1 1) (mkRat 2 1), max (mkRat 1 1) (mkRat 2 1), "",
          String.mk (List.replicate 65 'A' ++ ':' :: ' ' :: ['x']), "none"⟩ ∧
    parse_segment_line
        (String.mk (List.replicate 65 'A' ++ ':' :: ' ' ::
          (mkTs ['1'] [] '-' [] ['2'] ++ ' ' :: ['x']))) 0
      = some ⟨0, String.mk (mkTs ['1'] [] '-' [] ['2']),
          min (mkRat 1 1) (mkRat 2 1), max (mkRat 1 1) (mkRat 2 1), "",
          String.mk ['x'], "none"⟩ := by
  have hparse : parse_segment_line "[1-2] hi" 0
      = some ⟨0, "[1-2]", min (mkRat 1 1) (mkRat 2 1), max (mkRat 1 1) (mkRat 2 1),
          "", "hi", "none"⟩ := by
    have h := parseSegCore_bracket_first ['1'] [] [] ['2'] (' ' :: ['h', 'i'])
      ['h', 'i'] '-' (mkRat 1 1) (mkRat 2 1) 0 (by decide) (by decide) (by decide)
      (by decide) (by decide) (by decide) (Or.inl rfl) (by rfl) (by rfl)
      (bracket_line_last ['1'] [] '-' [] ['2'] (' ' :: ['h', 'i']) (by rfl))
      (by rfl)
    exact h
  exact speaker_label_bounds "[1-2] hi" 0
    ⟨0, "[1-2]", min (mkRat 1 1) (mkRat 2 1), max (mkRat 1 1) (mkRat 2 1), "", "hi", "none"⟩
    (List.replicate 65 'A') ['x'] ['1'] [] [] ['2'] '-' (mkRat 1 1) (mkRat 2 1)
    hparse (by decide) (by decide) (by decide) (by decide) (Or.inl rfl)
    (by rfl) (by rfl) (by decide) (by decide) (by rfl)
    (by decide) (by rfl) (by rfl)

end AIState
